import Mathlib

set_option maxHeartbeats 1000000

/-! Shallow embedding of the CourseMatrix data model (src/data_model.py and the
value-kind inference in src/gui.py), together with theorems checking the
natural-language specification against it.

Tabular values are modelled as a tagged union (string / number / timestamp /
missing); the pandas bulk coercions `to_datetime`, `to_numeric`, `astype(str)`
and `isna` become explicit total functions on that union, each returning the
"coerce, unparseable becomes missing" result the library produces. -/

/-- A tabular cell value: string, number, timestamp, or missing (NaN / None / NaT). -/
inductive Value where
  | str (s : String)
  | num (n : Int)
  | date (d : Int)
  | missing
deriving DecidableEq

/-- pd.isna on one cell value. -/
def Value.isna : Value → Bool
  | .missing => true
  | _ => false

/-- Python str() / pandas astype(str) coercion; pandas renders NaN as "nan". -/
def Value.toStr : Value → String
  | .str s => s
  | .num n => toString n
  | .date d => toString d
  | .missing => "nan"

/-- Split a character list on a separator character. -/
def splitChars (sep : Char) : List Char → List (List Char)
  | [] => [[]]
  | c :: cs =>
    match splitChars sep cs with
    | [] => if c = sep then [[], [c]] else [[c]]
    | g :: gs => if c = sep then [] :: g :: gs else (c :: g) :: gs

/-- Decimal digits to a number; none when empty or containing a non-digit. -/
def digitsToNat? (cs : List Char) : Option Nat :=
  if cs ≠ [] ∧ cs.all Char.isDigit then
    some (cs.foldl (fun acc c => acc * 10 + (c.toNat - 48)) 0)
  else none

/-- Models the external date parser behind pd.to_datetime(.., errors="coerce")
on a string cell: ISO `YYYY-MM-DD` dates parse to the order-preserving code
y*10000 + m*100 + d, anything else coerces to NaT (none). -/
def parseDateStr (s : String) : Option Int :=
  match splitChars '-' s.data with
  | [y, m, d] =>
    match digitsToNat? y, digitsToNat? m, digitsToNat? d with
    | some yn, some mn, some dn =>
      if 1 ≤ mn ∧ mn ≤ 12 ∧ 1 ≤ dn ∧ dn ≤ 31 then
        some ((yn * 10000 + mn * 100 + dn : Nat) : Int)
      else none
    | _, _, _ => none
  | _ => none

/-- Models the numeric parser behind pd.to_numeric(.., errors="coerce") on a
string cell: an optional minus sign followed by decimal digits. -/
def parseIntStr (s : String) : Option Int :=
  match s.data with
  | '-' :: cs => (digitsToNat? cs).map (fun n => -(n : Int))
  | cs => (digitsToNat? cs).map (fun n => (n : Int))

/-- pd.to_datetime(.., errors="coerce") on one cell (numbers are epoch offsets,
already-parsed timestamps pass through, missing stays NaT). -/
def Value.toDateOpt : Value → Option Int
  | .str s => parseDateStr s
  | .num n => some n
  | .date d => some d
  | .missing => none

/-- pd.to_numeric(.., errors="coerce") on one cell. -/
def Value.toNumOpt : Value → Option Int
  | .str s => parseIntStr s
  | .num n => some n
  | .date d => some d
  | .missing => none

/-- One record: an association list from column name to cell value (a pandas row). -/
abbrev Row := List (String × Value)

/-- row[c]: the value stored under column c, missing when the key is absent. -/
def Row.get (r : Row) (c : String) : Value :=
  match r.find? (fun p => decide (p.1 = c)) with
  | some p => p.2
  | none => .missing

/-- A DataFrame: the named columns plus the list of rows. -/
structure Table where
  cols : List String
  rows : List Row
deriving DecidableEq

/-- filter_dialog.FilterCriterion: column name, operator, literal bound values
and the value-kind tag. The kind is a plain string exactly as in the source:
`_apply_filters` branches on "categorical", then "date", and treats every
other tag as numeric. -/
structure FilterCriterion where
  column : String
  operator : String
  values : List Value
  value_type : String
deriving DecidableEq

/-- The shared numeric/date branch of CourseDataModel._apply_filters: the column
is bulk-coerced with `coerce`; an empty value list or an unparseable first
(start) value skips the criterion; `between` needs a present, parseable end
value and keeps rows inside [start, end] inclusively, otherwise the operator
chain falls through to equality against start. Comparisons with a coerced-away
(missing) cell are false, except `≠` which is true there, exactly as the
pandas element-wise comparisons behave on NaN/NaT. -/
def maskedFilter (t : Table) (c : FilterCriterion) (coerce : Value → Option Int) : Table :=
  match c.values with
  | [] => t
  | v0 :: rest =>
    match coerce v0 with
    | none => t
    | some start =>
      let endv : Option Int :=
        match rest with
        | [] => none
        | v1 :: _ => coerce v1
      let mask : Row → Bool := fun r =>
        let x := coerce (Row.get r c.column)
        if c.operator = "between" ∧ endv.isSome then
          match x, endv with
          | some d, some e => decide (start ≤ d ∧ d ≤ e)
          | _, _ => false
        else if c.operator = "≠" then decide (x ≠ some start)
        else if c.operator = "<" then
          match x with | some d => decide (d < start) | none => false
        else if c.operator = "≤" then
          match x with | some d => decide (d ≤ start) | none => false
        else if c.operator = ">" then
          match x with | some d => decide (start < d) | none => false
        else if c.operator = "≥" then
          match x with | some d => decide (start ≤ d) | none => false
        else decide (x = some start)
      { t with rows := t.rows.filter mask }

/-- One pass of the loop body of CourseDataModel._apply_filters: a criterion
whose column is absent from the current table is skipped; a categorical
criterion drops missing literal values, stringifies the rest and compares
against the stringified column; date and numeric criteria share maskedFilter
with the respective coercion. -/
def applyCriterion (t : Table) (c : FilterCriterion) : Table :=
  if ¬ c.column ∈ t.cols then t
  else if c.value_type = "categorical" then
    let values := (c.values.filter (fun v => !v.isna)).map Value.toStr
    match values with
    | [] => t
    | v0 :: _ =>
      let mask : Row → Bool := fun r =>
        let s := (Row.get r c.column).toStr
        if c.operator = "is" then decide (s = v0)
        else if c.operator = "is not" then decide (s ≠ v0)
        else if c.operator = "not in" then !(values.contains s)
        else values.contains s
      { t with rows := t.rows.filter mask }
  else if c.value_type = "date" then
    maskedFilter t c Value.toDateOpt
  else
    maskedFilter t c Value.toNumOpt

/-- CourseDataModel._apply_filters: the criteria are applied sequentially, each
intersecting the surviving rows with its boolean mask. -/
def applyFilters (t : Table) (fs : List FilterCriterion) : Table :=
  fs.foldl applyCriterion t

/-! ### Schema detection (CourseDataModel._detect_column, MainWindow._infer_value_type) -/

/-- ASCII lowering of one character (str.lower() on the ASCII column names the
program matches). -/
def charLower (c : Char) : Char :=
  if 'A' ≤ c ∧ c ≤ 'Z' then Char.ofNat (c.toNat + 32) else c

/-- Python str.lower() on a column name. -/
def strLower (s : String) : String := ⟨s.data.map charLower⟩

/-- CourseDataModel._detect_column: try each candidate in priority order; first
an exact match against the columns, then a case-insensitive match (the Python
dict comprehension keeps, for each lowered name, the last column producing it);
return the first hit across the whole candidate list, else none. -/
def detectColumn (columns : List String) (candidates : List String) : Option String :=
  match candidates with
  | [] => none
  | cand :: rest =>
    if cand ∈ columns then some cand
    else
      match columns.reverse.find? (fun col => decide (strLower col = strLower cand)) with
      | some col => some col
      | none => detectColumn columns rest

/-- The declared storage dtype of a pandas column. -/
inductive Dtype where
  | datetime64
  | numericDt
  | objectDt
deriving DecidableEq

/-- A pandas column: its declared dtype plus its cell values. -/
structure Series where
  dtype : Dtype
  values : List Value
deriving DecidableEq

/-- MainWindow._infer_value_type: datetime dtype is a date column; otherwise
bulk date parsing succeeding on a fraction ≥ 0.2 of the values (and on at
least one) makes it a date column; otherwise numeric dtype, then any value
parsing as a number, make it numeric; else categorical. -/
def inferValueType (s : Series) : String :=
  if s.dtype = Dtype.datetime64 then "date"
  else
    let parsedCount := s.values.countP (fun v => (Value.toDateOpt v).isSome)
    if 0 < parsedCount ∧ ((parsedCount : ℚ) / (s.values.length : ℚ)) ≥ 0.2 then "date"
    else if s.dtype = Dtype.numericDt then "numeric"
    else if s.values.any (fun v => (Value.toNumOpt v).isSome) then "numeric"
    else "categorical"

/-! ### Course catalog index (CourseDataModel._build_course_lookup, _course_label) -/

/-- A raw Python value sitting in a nested qualification entry. -/
inductive PyVal where
  | vNone
  | vStr (s : String)
  | vInt (n : Int)
deriving DecidableEq

/-- Python truthiness of such a value. -/
def PyVal.truthy : PyVal → Bool
  | .vNone => false
  | .vStr s => decide (s ≠ "")
  | .vInt n => decide (n ≠ 0)

/-- Python `a or b`. -/
def pyOr (a b : PyVal) : PyVal := if a.truthy then a else b

/-- Python str() on a qualification id. -/
def pyStr : PyVal → String
  | .vNone => "None"
  | .vStr s => s
  | .vInt n => toString n

/-- dict.get(k) on a nested qualification entry: None when the key is absent. -/
def dictGet (kv : List (String × PyVal)) (k : String) : PyVal :=
  match kv.find? (fun p => decide (p.1 = k)) with
  | some p => p.2
  | none => .vNone

/-- One element of a course row's nested qualification list: a dict, or some
other object (which isinstance(kwal, dict) rejects). -/
inductive KwalEntry where
  | dict (kv : List (String × PyVal))
  | notDict
deriving DecidableEq

/-- The `kwalificaties` cell of a course row: a proper list of entries, or any
non-list value (None / NaN / other), which contributes nothing. -/
inductive KwalField where
  | list (entries : List KwalEntry)
  | notList
deriving DecidableEq

/-- One row of the courses table: its plain columns plus the nested
qualification list. -/
structure CourseRow where
  fields : List (String × Value)
  kwalificaties : KwalField
deriving DecidableEq

/-- kwal.get("Kwal. ID") or kwal.get("Kwalificatie ID") or kwal.get("kwalificatie_id"),
with Python `or` semantics. -/
def resolveQid (kv : List (String × PyVal)) : PyVal :=
  pyOr (dictGet kv "Kwal. ID") (pyOr (dictGet kv "Kwalificatie ID") (dictGet kv "kwalificatie_id"))

/-- The insertion one nested entry contributes: dict entries with a resolvable
(non-None) id insert their stringified id mapped to the owning row. -/
def entryInsertion (row : CourseRow) (e : KwalEntry) : Option (String × CourseRow) :=
  match e with
  | .notDict => none
  | .dict kv =>
    match resolveQid kv with
    | .vNone => none
    | q => some (pyStr q, row)

/-- The (stringified id, owning row) insertions one course row contributes to
course_lookup_by_qid, in nested-entry order. -/
def rowInsertions (row : CourseRow) : List (String × CourseRow) :=
  match row.kwalificaties with
  | .notList => []
  | .list entries => entries.filterMap (entryInsertion row)

/-- CourseDataModel._build_course_lookup: iterate the course rows in order and
perform every insertion; the model records the insertion sequence and lookup
returns the last insertion under a key, matching the Python dict. -/
def buildCourseLookup (rows : List CourseRow) : List (String × CourseRow) :=
  rows.flatMap rowInsertions

/-- course_lookup_by_qid.get(k): the last insertion under k, if any. -/
def lookupQid (m : List (String × CourseRow)) (k : String) : Option CourseRow :=
  (m.reverse.find? (fun p => decide (p.1 = k))).map (fun p => p.2)

/-- CourseDataModel._course_label: probe name-like fields in priority order for
a non-blank string value; format it as "name (qid)", else fall back to the id. -/
def courseLabel (course_row : Option CourseRow) (qid : String) : String :=
  match course_row with
  | none => qid
  | some row =>
    let probe : String → Option String := fun cand =>
      match row.fields.find? (fun p => decide (p.1 = cand)) with
      | some p =>
        match p.2 with
        | .str s => if s.trim = "" then none else some s
        | _ => none
      | none => none
    match ["naam", "name", "course_name", "title"].findSome? probe with
    | some s => s ++ " (" ++ qid ++ ")"
    | none => qid

/-! ### Sorting and deduplication helpers (list.sort, pandas unique / groupby keys) -/

/-- Insertion of one element into a le-sorted list. -/
def insertSorted (le : α → α → Bool) (a : α) : List α → List α
  | [] => [a]
  | b :: bs => if le a b then a :: b :: bs else b :: insertSorted le a bs

/-- Insertion sort, modelling Python list.sort and the sorted pandas group keys. -/
def sortBy (le : α → α → Bool) : List α → List α
  | [] => []
  | a :: as => insertSorted le a (sortBy le as)

/-- Worker for first-occurrence deduplication. -/
def dedupFirstGo [DecidableEq α] : List α → List α → List α
  | _, [] => []
  | seen, a :: as =>
    if a ∈ seen then dedupFirstGo seen as else a :: dedupFirstGo (a :: seen) as

/-- pandas Series.unique: the distinct values in first-occurrence order. -/
def dedupFirst [DecidableEq α] (l : List α) : List α := dedupFirstGo [] l

/-- Lexicographic comparison of character lists by code point. -/
def charListLE : List Char → List Char → Bool
  | [], _ => true
  | _ :: _, [] => false
  | a :: as, b :: bs =>
    if a < b then true
    else if b < a then false
    else charListLE as bs

/-- Python string comparison: lexicographic by code point. -/
def strLE (a b : String) : Bool := charListLE a.data b.data

/-- A total comparison on cell values (strings lexicographically, numbers and
timestamps by magnitude, ranked across constructors) backing the sorted
pandas group keys; the program only ever groups on string-coerced columns. -/
def vle (a b : Value) : Bool :=
  match a, b with
  | .missing, _ => true
  | _, .missing => false
  | .str s, .str t => strLE s t
  | .str _, _ => true
  | _, .str _ => false
  | .num m, .num n => decide (m ≤ n)
  | .num _, _ => true
  | _, .num _ => false
  | .date d, .date e => decide (d ≤ e)

/-- The keys of df.groupby(col): missing keys dropped, distinct values, sorted
ascending. -/
def groupKeys (vals : List Value) : List Value :=
  sortBy vle (dedupFirst (vals.filter (fun v => !v.isna)))

/-! ### Matrix data containers (data_model.py dataclasses) -/

/-- data_model.StudentDescriptor. -/
structure StudentDescriptor where
  identifier : String
  label : String
  rows : List Row
deriving DecidableEq

/-- data_model.CourseDescriptor. -/
structure CourseDescriptor where
  qid : String
  label : String
  course_row : Option CourseRow
deriving DecidableEq

/-- data_model.CellDescriptor. -/
structure CellDescriptor where
  student : StudentDescriptor
  course : CourseDescriptor
  completion_date : Option Int
  student_rows : List Row
deriving DecidableEq

/-- data_model.MatrixData; cell_lookup keeps the dict insertion sequence. -/
structure MatrixData where
  students : List StudentDescriptor
  courses : List CourseDescriptor
  cell_lookup : List ((Nat × Nat) × CellDescriptor)
deriving DecidableEq

/-- MatrixData([], [], \x7b\x7d). -/
def emptyMatrix : MatrixData := ⟨[], [], []⟩

/-- cell_lookup.get((row, column)): the last insertion under that key, if any
(CourseDataModel.get_cell). -/
def cellGet (m : MatrixData) (i j : Nat) : Option CellDescriptor :=
  (m.cell_lookup.reverse.find? (fun e => decide (e.1 = (i, j)))).map (fun e => e.2)

/-! ### The top-level model state and its operations -/

/-- The mutable fields of CourseDataModel. -/
structure ModelState where
  students_df : Option Table
  courses_df : Option (List CourseRow)
  kwalificaties_df : Option (List Row)
  student_id_column : Option String
  student_name_column : Option String
  qid_column : Option String
  completion_column : Option String
  course_lookup : List (String × CourseRow)
  matrix_data : MatrixData
  filters : List FilterCriterion
deriving DecidableEq

/-- CourseDataModel.__init__. -/
def initialModel : ModelState :=
  ⟨none, none, none, none, none, none, none, [], emptyMatrix, []⟩

/-- The first row's value in a column, as used for the group's identifier and
name cells (iloc[0] on a nonempty group). -/
def firstCell (rows : List Row) (c : String) : Value :=
  match rows.head? with
  | some r => Row.get r c
  | none => .missing

/-- Step 3 of build_matrix: group the filtered rows by the identifier column
(missing keys dropped, keys sorted ascending, rows kept in order), building one
StudentDescriptor per distinct student with its label. -/
def buildStudents (sdf : Table) (idCol : String) (nameCol : Option String) :
    List StudentDescriptor :=
  (groupKeys (sdf.rows.map (fun r => Row.get r idCol))).map (fun k =>
    let rows := sdf.rows.filter (fun r => decide (Row.get r idCol = k))
    let sid := (firstCell rows idCol).toStr
    let label :=
      match nameCol with
      | some nc =>
        if nc ≠ "" ∧ nc ∈ sdf.cols then (firstCell rows nc).toStr ++ " (" ++ sid ++ ")"
        else sid
      | none => sid
    ⟨sid, label, rows⟩)

/-- Step 5 of build_matrix: the distinct qualification ids of the filtered
table (missing dropped, stringified, deduplicated, sorted ascending). -/
def uniqueQidsOf (sdf : Table) (qidCol : String) : List String :=
  sortBy strLE
    (dedupFirst (((sdf.rows.map (fun r => Row.get r qidCol)).filter
      (fun v => !v.isna)).map Value.toStr))

/-- Step 6 of build_matrix: one CourseDescriptor per axis qualification id,
with label and catalog row taken from the course lookup. -/
def buildCourses (lookup : List (String × CourseRow)) (qids : List String) :
    List CourseDescriptor :=
  qids.map (fun qid =>
    ⟨qid, courseLabel (lookupQid lookup qid) qid, lookupQid lookup qid⟩)

/-- The cell one qualification group of one student inserts: when the
stringified group key appears on the course axis (looked up by index), the
cell keyed by (student index, course index) holds the group's rows and the
maximum of their successfully parsed completion dates. -/
def cellFor (qidCol compCol : String) (courses : List CourseDescriptor)
    (i : Nat) (student : StudentDescriptor) (k : Value) :
    Option ((Nat × Nat) × CellDescriptor) :=
  match courses.enum.find? (fun q => decide (q.2.qid = Value.toStr k)) with
  | none => none
  | some q =>
    let rows := student.rows.filter (fun r => decide (Row.get r qidCol = k))
    some ((i, q.1),
      ⟨student, q.2,
       (rows.filterMap (fun r => Value.toDateOpt (Row.get r compCol))).max?,
       rows⟩)

/-- All cell insertions of one (indexed) student: its rows are grouped again by
qualification id and each group contributes through cellFor; a student table
lacking the qualification column contributes nothing. -/
def studentCells (sdf : Table) (qidCol compCol : String)
    (courses : List CourseDescriptor) (p : Nat × StudentDescriptor) :
    List ((Nat × Nat) × CellDescriptor) :=
  if qidCol ∈ sdf.cols then
    (groupKeys (p.2.rows.map (fun r => Row.get r qidCol))).filterMap
      (cellFor qidCol compCol courses p.1 p.2)
  else []

/-- Step 7 of build_matrix: for every student (by row index) group its rows
again by qualification id; every group whose stringified key appears on the
course axis inserts one cell with the group's parsed-date maximum and its
contributing rows. -/
def buildCells (sdf : Table) (qidCol compCol : String)
    (students : List StudentDescriptor) (courses : List CourseDescriptor) :
    List ((Nat × Nat) × CellDescriptor) :=
  students.enum.flatMap (studentCells sdf qidCol compCol courses)

/-- CourseDataModel.build_matrix as a pure function of the model state. When a
required detected column is absent the Python code would raise inside groupby;
those states are outside every theorem below, which all assume detected
columns, and the model returns the empty matrix there. -/
def buildMatrix (m : ModelState) : MatrixData :=
  match m.students_df, m.courses_df with
  | some sdf0, some _ =>
    let sdf := applyFilters sdf0 m.filters
    let students := buildStudents sdf (m.student_id_column.getD "") m.student_name_column
    if students.isEmpty then emptyMatrix
    else
      let courses :=
        buildCourses m.course_lookup (uniqueQidsOf sdf (m.qid_column.getD ""))
      if courses.isEmpty then ⟨students, [], []⟩
      else
        ⟨students, courses,
         buildCells sdf (m.qid_column.getD "") (m.completion_column.getD "") students courses⟩
  | _, _ => emptyMatrix

/-- The stateful build_matrix call: it also stores the result in matrix_data. -/
def buildMatrixS (m : ModelState) : ModelState :=
  { m with matrix_data := buildMatrix m }

/-- CourseDataModel.set_filters: replace the filter list and invalidate the
cached matrix. -/
def setFilters (m : ModelState) (fs : List FilterCriterion) : ModelState :=
  { m with filters := fs, matrix_data := emptyMatrix }

/-- The distinguishable load failures (FileNotFoundError, ValueError, and the
three KeyError messages of load_students). -/
inductive LoadError where
  | fileNotFound
  | emptySource
  | missingIdColumn
  | missingQidColumn
  | missingCompletionColumn
deriving DecidableEq

/-- Outcome of a load call: the raised error, if any, together with the model
state after the call (Python exceptions leave the object as mutated so far). -/
structure LoadResult where
  err : Option LoadError
  state : ModelState
deriving DecidableEq

/-- CourseDataModel.STUDENT_ID_CANDIDATES. -/
def STUDENT_ID_CANDIDATES : List String :=
  ["student_id", "Student ID", "StudentID", "studentnummer", "Studentnummer",
   "Relatienummer", "student", "ID"]

/-- CourseDataModel.STUDENT_NAME_CANDIDATES. -/
def STUDENT_NAME_CANDIDATES : List String :=
  ["Naam", "name", "Naam student", "student_name", "Student Name"]

/-- CourseDataModel.QID_CANDIDATES. -/
def QID_CANDIDATES : List String :=
  ["Kwal. ID", "Kwalificatie ID", "kwalificatie_id", "Kwalificatie",
   "KwalificatieID", "QID", "qid"]

/-- CourseDataModel.COMPLETION_CANDIDATES. -/
def COMPLETION_CANDIDATES : List String :=
  ["Uitgifte", "Completion", "Completion Date", "CompletionDate"]

/-- df[c] = f(df[c]): rewrite one column of a table in place. -/
def mapColumn (t : Table) (c : String) (f : Value → Value) : Table :=
  { t with rows := t.rows.map (fun r => r.map (fun p => if p.1 = c then (p.1, f p.2) else p)) }

/-- CourseDataModel.load_students. The opaque Excel reader is modelled by its
outcome: whether the path exists and the parsed table. The assignment order of
the source is kept: the new table and each detected column are stored before
the corresponding check, so a schema-detection failure leaves a partially
updated state, while the missing-file and empty-table failures precede every
assignment. On success the completion column is bulk-coerced to timestamps and
the qualification and identifier columns to strings, the cached matrix is
emptied and the filter list reset. -/
def loadStudents (m : ModelState) (fileExists : Bool) (df : Table) : LoadResult :=
  if ¬ fileExists then ⟨some .fileNotFound, m⟩
  else if df.rows.isEmpty then ⟨some .emptySource, m⟩
  else
    let m1 := { m with students_df := some df }
    let idc := detectColumn df.cols STUDENT_ID_CANDIDATES
    let m2 := { m1 with student_id_column := idc }
    match idc with
    | none => ⟨some .missingIdColumn, m2⟩
    | some idCol =>
      let qc := detectColumn df.cols QID_CANDIDATES
      let m3 := { m2 with qid_column := qc }
      match qc with
      | none => ⟨some .missingQidColumn, m3⟩
      | some qidCol =>
        let cc := detectColumn df.cols COMPLETION_CANDIDATES
        let m4 := { m3 with completion_column := cc }
        match cc with
        | none => ⟨some .missingCompletionColumn, m4⟩
        | some compCol =>
          let nc := detectColumn df.cols STUDENT_NAME_CANDIDATES
          let df1 := mapColumn df compCol (fun v =>
            match v.toDateOpt with
            | some d => Value.date d
            | none => Value.missing)
          let df2 := mapColumn df1 qidCol (fun v => Value.str v.toStr)
          let df3 := mapColumn df2 idCol (fun v => Value.str v.toStr)
          ⟨none, { m4 with
            students_df := some df3,
            student_name_column := nc,
            matrix_data := emptyMatrix,
            filters := [] }⟩

/-- CourseDataModel.load_courses. The opaque HDF5 loader is modelled by its
outcome: path existence plus the two tables it returns. Both failure checks
precede every assignment, so a failed course load leaves the state untouched. -/
def loadCourses (m : ModelState) (fileExists : Bool) (courseRows : List CourseRow)
    (kwalRows : List Row) : LoadResult :=
  if ¬ fileExists then ⟨some .fileNotFound, m⟩
  else if courseRows.isEmpty then ⟨some .emptySource, m⟩
  else
    ⟨none, { m with
      courses_df := some courseRows,
      kwalificaties_df := some kwalRows,
      course_lookup := buildCourseLookup courseRows,
      matrix_data := emptyMatrix }⟩

/-! ### Theorems: filter predicate engine (C3, C4, C5) -/

/-- A criterion whose start value is missing or unparseable is skipped by the
shared numeric/date branch. -/
theorem maskedFilter_skip (t : Table) (c : FilterCriterion) (coerce : Value → Option Int)
    (h : ∀ v0 rest, c.values = v0 :: rest → coerce v0 = none) :
    maskedFilter t c coerce = t := by
  rcases hv : c.values with _ | ⟨v0, rest⟩
  · simp [maskedFilter, hv]
  · simp [maskedFilter, hv, h v0 rest hv]

/-- C3: for every table and filter lists F1, F2, filtering with F1 and then F2
equals filtering once with F1 ++ F2; the criteria are evaluated sequentially
as an AND-conjunction of boolean masks. -/
theorem applyFilters_append (t : Table) (f1 f2 : List FilterCriterion) :
    applyFilters (applyFilters t f1) f2 = applyFilters t (f1 ++ f2) := by
  simp [applyFilters, List.foldl_append]

/-- C5: filter application is total and degrades gracefully: a criterion whose
column is absent leaves the table unchanged, a categorical criterion whose
value list is empty after dropping missing values is skipped, and a date or
numeric criterion whose start value is missing or unparseable is skipped. -/
theorem applyCriterion_skips :
    (∀ (t : Table) (c : FilterCriterion), ¬ c.column ∈ t.cols → applyCriterion t c = t)
  ∧ (∀ (t : Table) (c : FilterCriterion), c.value_type = "categorical" →
       c.values.filter (fun v => !v.isna) = [] → applyCriterion t c = t)
  ∧ (∀ (t : Table) (c : FilterCriterion), c.value_type = "date" →
       (∀ v0 rest, c.values = v0 :: rest → v0.toDateOpt = none) → applyCriterion t c = t)
  ∧ (∀ (t : Table) (c : FilterCriterion), c.value_type ≠ "categorical" → c.value_type ≠ "date" →
       (∀ v0 rest, c.values = v0 :: rest → v0.toNumOpt = none) → applyCriterion t c = t) := by
  refine ⟨?_, ?_, ?_, ?_⟩
  · intro t c h
    simp [applyCriterion, h]
  · intro t c hk hv
    by_cases hcol : c.column ∈ t.cols
    · simp [applyCriterion, hcol, hk, hv]
    · simp [applyCriterion, hcol]
  · intro t c hk h
    by_cases hcol : c.column ∈ t.cols
    · simp [applyCriterion, hcol, hk, maskedFilter_skip t c Value.toDateOpt h]
    · simp [applyCriterion, hcol]
  · intro t c hk1 hk2 h
    by_cases hcol : c.column ∈ t.cols
    · simp [applyCriterion, hcol, hk1, hk2, maskedFilter_skip t c Value.toNumOpt h]
    · simp [applyCriterion, hcol]

/-- Witness for C5 at a concrete input: a criterion naming an absent column is
skipped. -/
theorem applyCriterion_skips_w :
    applyCriterion ⟨["a"], [[("a", Value.num 1)]]⟩ ⟨"b", "is", [], "categorical"⟩ =
      ⟨["a"], [[("a", Value.num 1)]]⟩ :=
  applyCriterion_skips.1 _ _ (by decide)

/-- Shared numeric/date branch, `between` with both bounds parsed: the mask is
start ≤ v ∧ v ≤ end, inclusive, with unparseable cells non-matching. -/
theorem maskedFilter_between (t : Table) (c : FilterCriterion) (coerce : Value → Option Int)
    (v0 v1 : Value) (vs : List Value) (s e : Int)
    (hop : c.operator = "between") (hv : c.values = v0 :: v1 :: vs)
    (h0 : coerce v0 = some s) (h1 : coerce v1 = some e) :
    maskedFilter t c coerce = { t with rows := t.rows.filter (fun r =>
      match coerce (Row.get r c.column) with
      | some d => decide (s ≤ d ∧ d ≤ e)
      | none => false) } := by
  simp only [maskedFilter, hv, h0, h1, hop]
  congr 1
  apply List.filter_congr
  intro r _
  cases coerce (Row.get r c.column) <;> simp

/-- Shared numeric/date branch, `between` with an absent or unparseable end
value: the criterion falls back to equality against the start value. -/
theorem maskedFilter_between_fb (t : Table) (c : FilterCriterion) (coerce : Value → Option Int)
    (v0 : Value) (rest : List Value) (s : Int)
    (hop : c.operator = "between") (hv : c.values = v0 :: rest)
    (h0 : coerce v0 = some s)
    (hend : ∀ v1 vs, rest = v1 :: vs → coerce v1 = none) :
    maskedFilter t c coerce = { t with rows := t.rows.filter (fun r =>
      decide (coerce (Row.get r c.column) = some s)) } := by
  rcases rest with _ | ⟨v1, vs⟩
  · simp [maskedFilter, hv, h0, hop]
  · simp [maskedFilter, hv, h0, hop, hend v1 vs rfl]

/-- C4: for a numeric or date criterion with operator `between`: with both
bounds parsed the surviving rows are exactly those whose coerced value lies in
[start, end] inclusive; inverted bounds keep no rows (no swapping); an absent
or unparseable end value with a parsed start falls back to equality against
start. -/
theorem between_filter_spec :
    (∀ (t : Table) (c : FilterCriterion) (v0 v1 : Value) (vs : List Value) (s e : Int),
       c.value_type = "numeric" → c.operator = "between" → c.column ∈ t.cols →
       c.values = v0 :: v1 :: vs → v0.toNumOpt = some s → v1.toNumOpt = some e →
       applyCriterion t c = { t with rows := t.rows.filter (fun r =>
         match (Row.get r c.column).toNumOpt with
         | some d => decide (s ≤ d ∧ d ≤ e)
         | none => false) })
  ∧ (∀ (t : Table) (c : FilterCriterion) (v0 v1 : Value) (vs : List Value) (s e : Int),
       c.value_type = "date" → c.operator = "between" → c.column ∈ t.cols →
       c.values = v0 :: v1 :: vs → v0.toDateOpt = some s → v1.toDateOpt = some e →
       applyCriterion t c = { t with rows := t.rows.filter (fun r =>
         match (Row.get r c.column).toDateOpt with
         | some d => decide (s ≤ d ∧ d ≤ e)
         | none => false) })
  ∧ (∀ (t : Table) (c : FilterCriterion) (v0 v1 : Value) (vs : List Value) (s e : Int),
       c.value_type = "numeric" → c.operator = "between" → c.column ∈ t.cols →
       c.values = v0 :: v1 :: vs → v0.toNumOpt = some s → v1.toNumOpt = some e →
       e < s → applyCriterion t c = { t with rows := [] })
  ∧ (∀ (t : Table) (c : FilterCriterion) (v0 v1 : Value) (vs : List Value) (s e : Int),
       c.value_type = "date" → c.operator = "between" → c.column ∈ t.cols →
       c.values = v0 :: v1 :: vs → v0.toDateOpt = some s → v1.toDateOpt = some e →
       e < s → applyCriterion t c = { t with rows := [] })
  ∧ (∀ (t : Table) (c : FilterCriterion) (v0 : Value) (rest : List Value) (s : Int),
       c.value_type = "numeric" → c.operator = "between" → c.column ∈ t.cols →
       c.values = v0 :: rest → v0.toNumOpt = some s →
       (∀ v1 vs, rest = v1 :: vs → v1.toNumOpt = none) →
       applyCriterion t c = { t with rows := t.rows.filter (fun r =>
         decide ((Row.get r c.column).toNumOpt = some s)) })
  ∧ (∀ (t : Table) (c : FilterCriterion) (v0 : Value) (rest : List Value) (s : Int),
       c.value_type = "date" → c.operator = "between" → c.column ∈ t.cols →
       c.values = v0 :: rest → v0.toDateOpt = some s →
       (∀ v1 vs, rest = v1 :: vs → v1.toDateOpt = none) →
       applyCriterion t c = { t with rows := t.rows.filter (fun r =>
         decide ((Row.get r c.column).toDateOpt = some s)) }) := by
  have hnum : ∀ (t : Table) (c : FilterCriterion), c.value_type = "numeric" →
      c.column ∈ t.cols → applyCriterion t c = maskedFilter t c Value.toNumOpt := by
    intro t c hk hcol
    simp [applyCriterion, hcol, hk]
  have hdate : ∀ (t : Table) (c : FilterCriterion), c.value_type = "date" →
      c.column ∈ t.cols → applyCriterion t c = maskedFilter t c Value.toDateOpt := by
    intro t c hk hcol
    simp [applyCriterion, hcol, hk]
  have hempty : ∀ (t : Table) (f : Row → Bool), (∀ r, f r = false) →
      ({ t with rows := t.rows.filter f } : Table) = { t with rows := [] } := by
    intro t f hf
    congr 1
    exact List.filter_eq_nil_iff.mpr (fun r _ => by simp [hf r])
  refine ⟨?_, ?_, ?_, ?_, ?_, ?_⟩
  · intro t c v0 v1 vs s e hk hop hcol hv h0 h1
    rw [hnum t c hk hcol]
    exact maskedFilter_between t c _ v0 v1 vs s e hop hv h0 h1
  · intro t c v0 v1 vs s e hk hop hcol hv h0 h1
    rw [hdate t c hk hcol]
    exact maskedFilter_between t c _ v0 v1 vs s e hop hv h0 h1
  · intro t c v0 v1 vs s e hk hop hcol hv h0 h1 hlt
    rw [hnum t c hk hcol, maskedFilter_between t c _ v0 v1 vs s e hop hv h0 h1]
    apply hempty
    intro r
    cases (Row.get r c.column).toNumOpt with
    | none => rfl
    | some d => simp; omega
  · intro t c v0 v1 vs s e hk hop hcol hv h0 h1 hlt
    rw [hdate t c hk hcol, maskedFilter_between t c _ v0 v1 vs s e hop hv h0 h1]
    apply hempty
    intro r
    cases (Row.get r c.column).toDateOpt with
    | none => rfl
    | some d => simp; omega
  · intro t c v0 rest s hk hop hcol hv h0 hend
    rw [hnum t c hk hcol]
    exact maskedFilter_between_fb t c _ v0 rest s hop hv h0 hend
  · intro t c v0 rest s hk hop hcol hv h0 hend
    rw [hdate t c hk hcol]
    exact maskedFilter_between_fb t c _ v0 rest s hop hv h0 hend

/-- Witness for C4 at concrete inputs: a numeric between over [1, 10] keeps the
in-range rows inclusively, and the inverted bounds [10, 5] keep no rows. -/
theorem between_filter_spec_w :
    applyCriterion ⟨["a"], [[("a", Value.num 1)], [("a", Value.num 7)], [("a", Value.num 12)]]⟩
        ⟨"a", "between", [Value.num 1, Value.num 10], "numeric"⟩ =
      ⟨["a"], [[("a", Value.num 1)], [("a", Value.num 7)]]⟩
  ∧ applyCriterion ⟨["a"], [[("a", Value.num 7)]]⟩
        ⟨"a", "between", [Value.num 10, Value.num 5], "numeric"⟩ =
      ⟨["a"], []⟩ := by
  constructor
  · exact (between_filter_spec.1 _ _ (Value.num 1) (Value.num 10) [] 1 10 rfl rfl
      (by decide) rfl rfl rfl).trans (by decide)
  · exact (between_filter_spec.2.2.1 _ _ (Value.num 10) (Value.num 5) [] 10 5 rfl rfl
      (by decide) rfl rfl rfl (by decide)).trans rfl

/-! ### Theorems: schema detection (C8) and value-kind inference (C7) -/

/-- C8: detect_column tries each candidate in priority order, first exactly and
then case-insensitively against all available columns, returning the first hit
across the whole candidate list, else none; in particular with candidates
[A, B] both present, A wins regardless of the table's column order. -/
theorem detectColumn_spec :
    (∀ (cols : List String) (A B : String), A ∈ cols → B ∈ cols →
       detectColumn cols [A, B] = some A)
  ∧ (∀ (cols : List String) (c : String) (rest : List String), c ∈ cols →
       detectColumn cols (c :: rest) = some c)
  ∧ (∀ (cols : List String) (c : String) (rest : List String), ¬ c ∈ cols →
       (∀ col ∈ cols, strLower col ≠ strLower c) →
       detectColumn cols (c :: rest) = detectColumn cols rest)
  ∧ (∀ (cols : List String) (c : String) (rest : List String) (col0 : String),
       ¬ c ∈ cols → col0 ∈ cols → strLower col0 = strLower c →
       ∃ col, detectColumn cols (c :: rest) = some col ∧ col ∈ cols ∧
         strLower col = strLower c)
  ∧ (∀ (cols : List String) (cands : List String),
       (∀ c ∈ cands, ¬ c ∈ cols ∧ ∀ col ∈ cols, strLower col ≠ strLower c) →
       detectColumn cols cands = none) := by
  have hexact : ∀ (cols : List String) (c : String) (rest : List String), c ∈ cols →
      detectColumn cols (c :: rest) = some c := by
    intro cols c rest h
    simp [detectColumn, h]
  have hskip : ∀ (cols : List String) (c : String) (rest : List String), ¬ c ∈ cols →
      (∀ col ∈ cols, strLower col ≠ strLower c) →
      detectColumn cols (c :: rest) = detectColumn cols rest := by
    intro cols c rest h1 h2
    have hf : cols.reverse.find? (fun col => decide (strLower col = strLower c)) = none := by
      apply List.find?_eq_none.mpr
      intro col hcol
      simp [h2 col (List.mem_reverse.mp hcol)]
    simp [detectColumn, h1, hf]
  refine ⟨?_, hexact, hskip, ?_, ?_⟩
  · intro cols A B hA _
    exact hexact cols A [B] hA
  · intro cols c rest col0 h1 h2 h3
    rcases hf : cols.reverse.find? (fun col => decide (strLower col = strLower c)) with _ | col
    · exfalso
      have := List.find?_eq_none.mp hf col0 (List.mem_reverse.mpr h2)
      simp [h3] at this
    · refine ⟨col, ?_, ?_, ?_⟩
      · simp [detectColumn, h1, hf]
      · exact List.mem_reverse.mp (List.mem_of_find?_eq_some hf)
      · have := List.find?_some hf
        simpa using this
  · intro cols cands h
    induction cands with
    | nil => rfl
    | cons c rest ih =>
      rw [hskip cols c rest (h c (by simp)).1 (h c (by simp)).2]
      exact ih (fun x hx => h x (by simp [hx]))

/-- Witness for C8 at a concrete input: with both candidate columns present,
the first candidate is chosen even though the other column comes first in the
table. -/
theorem detectColumn_spec_w :
    detectColumn ["x", "B", "A"] ["A", "B"] = some "A" :=
  detectColumn_spec.1 ["x", "B", "A"] "A" "B" (by decide) (by decide)

/-- C7: the value-kind inference decides in order: datetime dtype gives date;
else a date-parse fraction ≥ 0.2 gives date (exactly 0.2 included); else a
numeric dtype gives numeric; else any value parsing as a number gives numeric;
else categorical. -/
theorem inferValueType_spec (s : Series) :
    (s.dtype = Dtype.datetime64 → inferValueType s = "date")
  ∧ (s.dtype ≠ Dtype.datetime64 → 0 < s.values.length →
      ((((s.values.countP (fun v => (Value.toDateOpt v).isSome) : ℚ) / (s.values.length : ℚ)) ≥ 0.2 →
         inferValueType s = "date")
       ∧ ((((s.values.countP (fun v => (Value.toDateOpt v).isSome) : ℚ) / (s.values.length : ℚ)) < 0.2 →
           ((s.dtype = Dtype.numericDt → inferValueType s = "numeric")
         ∧ (s.dtype ≠ Dtype.numericDt →
             ((s.values.any (fun v => (Value.toNumOpt v).isSome)) = true →
                inferValueType s = "numeric")
           ∧ ((s.values.any (fun v => (Value.toNumOpt v).isSome)) = false →
                inferValueType s = "categorical"))))))) := by
  constructor
  · intro h
    simp [inferValueType, h]
  · intro hdt hlen
    constructor
    · intro hge
      have hcnt : 0 < s.values.countP (fun v => (Value.toDateOpt v).isSome) := by
        by_contra hc
        have h0 : s.values.countP (fun v => (Value.toDateOpt v).isSome) = 0 := by omega
        rw [h0] at hge
        norm_num at hge
      simp only [inferValueType]
      rw [if_neg hdt, if_pos ⟨hcnt, hge⟩]
    · intro hlt
      have hcond : ¬ (0 < s.values.countP (fun v => (Value.toDateOpt v).isSome) ∧
          ((s.values.countP (fun v => (Value.toDateOpt v).isSome) : ℚ) / (s.values.length : ℚ)) ≥ 0.2) := by
        intro hc
        exact absurd hc.2 (not_le.mpr hlt)
      have hmain : inferValueType s =
          (if s.dtype = Dtype.numericDt then "numeric"
           else if s.values.any (fun v => (Value.toNumOpt v).isSome) then "numeric"
           else "categorical") := by
        simp only [inferValueType]
        rw [if_neg hdt, if_neg hcond]
      constructor
      · intro hnum
        rw [hmain, if_pos hnum]
      · intro hnnum
        constructor
        · intro hany
          rw [hmain, if_neg hnnum, if_pos hany]
        · intro hany
          rw [hmain, if_neg hnnum, if_neg (by simp [hany])]

/-- Witness for C7 at concrete inputs: one parseable date among five values is
exactly the 0.2 boundary and yields date; one among ten is below it and, with
nothing numeric, yields categorical. -/
theorem inferValueType_spec_w :
    inferValueType ⟨Dtype.objectDt,
      [Value.str "2024-01-01", Value.str "x", Value.str "y", Value.str "z", Value.str "w"]⟩ = "date"
  ∧ inferValueType ⟨Dtype.objectDt,
      [Value.str "2024-01-01", Value.str "a", Value.str "b", Value.str "c", Value.str "d",
       Value.str "e", Value.str "f", Value.str "g", Value.str "h", Value.str "i"]⟩ =
      "categorical" := by
  constructor
  · refine ((inferValueType_spec _).2 (by decide) (by decide)).1 ?_
    have h : List.countP (fun v => (Value.toDateOpt v).isSome)
        [Value.str "2024-01-01", Value.str "x", Value.str "y", Value.str "z",
         Value.str "w"] = 1 := by decide
    rw [h]
    norm_num
  · refine (((((inferValueType_spec _).2 (by decide) (by decide)).2) ?_).2 (by decide)).2 (by decide)
    have h : List.countP (fun v => (Value.toDateOpt v).isSome)
        [Value.str "2024-01-01", Value.str "a", Value.str "b", Value.str "c", Value.str "d",
         Value.str "e", Value.str "f", Value.str "g", Value.str "h", Value.str "i"] = 1 := by decide
    rw [h]
    norm_num

/-! ### Theorems: course catalog index (C9) -/

/-- Characterization of a successful entry insertion. -/
theorem entryInsertion_some (row : CourseRow) (a : KwalEntry) (e : String × CourseRow)
    (h : entryInsertion row a = some e) :
    ∃ kv, a = KwalEntry.dict kv ∧ resolveQid kv ≠ PyVal.vNone ∧
      e = (pyStr (resolveQid kv), row) := by
  rcases a with kv | _
  · rcases hq : resolveQid kv with _ | s | n
    · simp [entryInsertion, hq] at h
    · simp [entryInsertion, hq] at h
      exact ⟨kv, rfl, by simp [hq], by simp [hq, ← h]⟩
    · simp [entryInsertion, hq] at h
      exact ⟨kv, rfl, by simp [hq], by simp [hq, ← h]⟩
  · simp [entryInsertion] at h

/-- A dict entry with a resolvable id always inserts it. -/
theorem entryInsertion_dict (row : CourseRow) (kv : List (String × PyVal))
    (h : resolveQid kv ≠ PyVal.vNone) :
    entryInsertion row (KwalEntry.dict kv) = some (pyStr (resolveQid kv), row) := by
  rcases hq : resolveQid kv with _ | s | n
  · exact absurd hq h
  · simp [entryInsertion, hq]
  · simp [entryInsertion, hq]

/-- Every insertion a course row contributes carries that row as its value. -/
theorem rowInsertions_snd (r : CourseRow) (e : String × CourseRow)
    (he : e ∈ rowInsertions r) : e.2 = r := by
  unfold rowInsertions at he
  rcases hk : r.kwalificaties with entries | _
  · rw [hk] at he
    obtain ⟨a, _, hfa⟩ := List.mem_filterMap.mp he
    obtain ⟨kv, _, _, hee⟩ := entryInsertion_some r a e hfa
    simp [hee]
  · rw [hk] at he
    simp at he

/-- Looking a key up in concatenated insertion sequences prefers the later part. -/
theorem lookupQid_append (l1 l2 : List (String × CourseRow)) (k : String) :
    lookupQid (l1 ++ l2) k = (lookupQid l2 k).or (lookupQid l1 k) := by
  simp only [lookupQid, List.reverse_append, List.find?_append]
  cases l2.reverse.find? (fun p => decide (p.1 = k)) <;> simp

/-- If a row inserts under key k, looking k up among its insertions returns it. -/
theorem lookupQid_rowInsertions (r : CourseRow) (k : String)
    (h : k ∈ (rowInsertions r).map Prod.fst) :
    lookupQid (rowInsertions r) k = some r := by
  obtain ⟨e, he, hfst⟩ := List.mem_map.mp h
  rcases hf : (rowInsertions r).reverse.find? (fun p => decide (p.1 = k)) with _ | e2
  · exfalso
    have := List.find?_eq_none.mp hf e (List.mem_reverse.mpr he)
    simp [hfst] at this
  · have he2 : e2 ∈ rowInsertions r := List.mem_reverse.mp (List.mem_of_find?_eq_some hf)
    simp [lookupQid, hf, rowInsertions_snd r e2 he2]

/-- If a row never inserts under key k, looking k up among its insertions fails. -/
theorem lookupQid_rowInsertions_none (r : CourseRow) (k : String)
    (h : ¬ k ∈ (rowInsertions r).map Prod.fst) :
    lookupQid (rowInsertions r) k = none := by
  have hf : (rowInsertions r).reverse.find? (fun p => decide (p.1 = k)) = none := by
    apply List.find?_eq_none.mpr
    intro e he
    have : e.1 ≠ k := fun hc => h (List.mem_map.mpr ⟨e, List.mem_reverse.mp he, hc⟩)
    simp [this]
  simp [lookupQid, hf]

/-- C9: the course catalog index maps every nested qualification entry with a
resolvable id (probed under "Kwal. ID" / "Kwalificatie ID" / "kwalificatie_id")
to its owning course row, stringified; when several rows claim the same id the
later-processed row wins, and rows without a proper qualification list
contribute nothing. -/
theorem courseLookup_spec :
    (∀ (rs : List CourseRow) (r : CourseRow) (k : String),
       k ∈ (rowInsertions r).map Prod.fst →
       lookupQid (buildCourseLookup (rs ++ [r])) k = some r)
  ∧ (∀ (rs : List CourseRow) (r : CourseRow) (k : String),
       ¬ k ∈ (rowInsertions r).map Prod.fst →
       lookupQid (buildCourseLookup (rs ++ [r])) k = lookupQid (buildCourseLookup rs) k)
  ∧ (∀ r : CourseRow, r.kwalificaties = KwalField.notList → rowInsertions r = [])
  ∧ (∀ (r : CourseRow) (k : String), k ∈ (rowInsertions r).map Prod.fst ↔
       ∃ entries kv, r.kwalificaties = KwalField.list entries ∧
         KwalEntry.dict kv ∈ entries ∧ resolveQid kv ≠ PyVal.vNone ∧
         pyStr (resolveQid kv) = k) := by
  have happ : ∀ (rs : List CourseRow) (r : CourseRow),
      buildCourseLookup (rs ++ [r]) = buildCourseLookup rs ++ rowInsertions r := by
    intro rs r
    simp [buildCourseLookup]
  refine ⟨?_, ?_, ?_, ?_⟩
  · intro rs r k h
    rw [happ, lookupQid_append, lookupQid_rowInsertions r k h]
    rfl
  · intro rs r k h
    rw [happ, lookupQid_append, lookupQid_rowInsertions_none r k h]
    cases lookupQid (buildCourseLookup rs) k <;> rfl
  · intro r h
    simp [rowInsertions, h]
  · intro r k
    constructor
    · intro h
      obtain ⟨e, he, hfst⟩ := List.mem_map.mp h
      unfold rowInsertions at he
      rcases hk : r.kwalificaties with entries | _
      · rw [hk] at he
        obtain ⟨a, ha, hfa⟩ := List.mem_filterMap.mp he
        obtain ⟨kv, hadict, hne, hee⟩ := entryInsertion_some r a e hfa
        subst hadict
        exact ⟨entries, kv, rfl, ha, hne, by rw [← hfst, hee]⟩
      · rw [hk] at he
        simp at he
    · rintro ⟨entries, kv, hk, hkv, hne, hstr⟩
      apply List.mem_map.mpr
      refine ⟨(pyStr (resolveQid kv), r), ?_, hstr⟩
      unfold rowInsertions
      rw [hk]
      exact List.mem_filterMap.mpr ⟨KwalEntry.dict kv, hkv, entryInsertion_dict r kv hne⟩

/-- Witness for C9 at a concrete input: two course rows both claim
qualification "Q9"; the lookup returns the later-processed row. -/
theorem courseLookup_spec_w :
    lookupQid (buildCourseLookup
      [⟨[("naam", Value.str "A")], KwalField.list [KwalEntry.dict [("Kwal. ID", PyVal.vStr "Q9")]]⟩,
       ⟨[("naam", Value.str "B")], KwalField.list [KwalEntry.dict [("Kwal. ID", PyVal.vStr "Q9")]]⟩])
      "Q9" =
    some ⟨[("naam", Value.str "B")], KwalField.list [KwalEntry.dict [("Kwal. ID", PyVal.vStr "Q9")]]⟩ :=
  courseLookup_spec.1
    [⟨[("naam", Value.str "A")], KwalField.list [KwalEntry.dict [("Kwal. ID", PyVal.vStr "Q9")]]⟩]
    ⟨[("naam", Value.str "B")], KwalField.list [KwalEntry.dict [("Kwal. ID", PyVal.vStr "Q9")]]⟩
    "Q9" (by decide)

/-! ### List infrastructure: insertion sort and first-occurrence dedup -/

/-- Membership through sorted insertion. -/
theorem mem_insertSorted (le : α → α → Bool) (a x : α) (l : List α) :
    x ∈ insertSorted le a l ↔ x = a ∨ x ∈ l := by
  induction l with
  | nil => simp [insertSorted]
  | cons b bs ih =>
    by_cases h : le a b = true
    · simp [insertSorted, h]
    · simp only [insertSorted, if_neg h, List.mem_cons, ih]
      tauto

/-- Membership through sorting. -/
theorem mem_sortBy (le : α → α → Bool) (x : α) (l : List α) :
    x ∈ sortBy le l ↔ x ∈ l := by
  induction l with
  | nil => simp [sortBy]
  | cons a as ih => simp [sortBy, mem_insertSorted, ih]

/-- Sorted insertion preserves freedom from duplicates. -/
theorem nodup_insertSorted (le : α → α → Bool) (a : α) (l : List α)
    (ha : ¬ a ∈ l) (hl : l.Nodup) : (insertSorted le a l).Nodup := by
  induction l with
  | nil => simp [insertSorted]
  | cons b bs ih =>
    rcases List.nodup_cons.mp hl with ⟨hb, hbs⟩
    by_cases h : le a b = true
    · rw [insertSorted, if_pos h]
      exact List.nodup_cons.mpr ⟨ha, hl⟩
    · rw [insertSorted, if_neg h]
      refine List.nodup_cons.mpr ⟨?_, ih (fun hc => ha (List.mem_cons_of_mem b hc)) hbs⟩
      intro hc
      rcases (mem_insertSorted le a b bs).mp hc with rfl | hc
      · exact ha (List.mem_cons_self b bs)
      · exact hb hc

/-- Sorting preserves freedom from duplicates. -/
theorem nodup_sortBy (le : α → α → Bool) (l : List α) (hl : l.Nodup) :
    (sortBy le l).Nodup := by
  induction l with
  | nil => simp [sortBy]
  | cons a as ih =>
    rcases List.nodup_cons.mp hl with ⟨ha, has⟩
    exact nodup_insertSorted le a _ (fun hc => ha ((mem_sortBy le a as).mp hc)) (ih has)

/-- Sorted insertion preserves sortedness, for a total transitive comparison. -/
theorem pairwise_insertSorted (le : α → α → Bool)
    (htot : ∀ a b, le a b = true ∨ le b a = true)
    (htrans : ∀ a b c, le a b = true → le b c = true → le a c = true)
    (a : α) (l : List α) (hl : l.Pairwise (fun x y => le x y = true)) :
    (insertSorted le a l).Pairwise (fun x y => le x y = true) := by
  induction l with
  | nil => simp [insertSorted]
  | cons b bs ih =>
    rcases List.pairwise_cons.mp hl with ⟨hb, hbs⟩
    by_cases h : le a b = true
    · rw [insertSorted, if_pos h]
      refine List.pairwise_cons.mpr ⟨?_, hl⟩
      intro x hx
      rcases List.mem_cons.mp hx with rfl | hx
      · exact h
      · exact htrans a b x h (hb x hx)
    · rw [insertSorted, if_neg h]
      refine List.pairwise_cons.mpr ⟨?_, ih hbs⟩
      intro x hx
      rcases (mem_insertSorted le a x bs).mp hx with rfl | hx
      · rcases htot x b with h1 | h1
        · exact absurd h1 h
        · exact h1
      · exact hb x hx

/-- Insertion sort sorts, for a total transitive comparison. -/
theorem pairwise_sortBy (le : α → α → Bool)
    (htot : ∀ a b, le a b = true ∨ le b a = true)
    (htrans : ∀ a b c, le a b = true → le b c = true → le a c = true)
    (l : List α) : (sortBy le l).Pairwise (fun x y => le x y = true) := by
  induction l with
  | nil => simp [sortBy]
  | cons a as ih => exact pairwise_insertSorted le htot htrans a _ ih

/-- Membership through the dedup worker. -/
theorem mem_dedupFirstGo [DecidableEq α] (x : α) (seen l : List α) :
    x ∈ dedupFirstGo seen l ↔ x ∈ l ∧ ¬ x ∈ seen := by
  induction l generalizing seen with
  | nil => simp [dedupFirstGo]
  | cons a as ih =>
    by_cases h : a ∈ seen
    · rw [dedupFirstGo, if_pos h, ih]
      constructor
      · rintro ⟨h1, h2⟩
        exact ⟨List.mem_cons_of_mem a h1, h2⟩
      · rintro ⟨h1, h2⟩
        rcases List.mem_cons.mp h1 with rfl | h1
        · exact absurd h h2
        · exact ⟨h1, h2⟩
    · rw [dedupFirstGo, if_neg h]
      constructor
      · intro hc
        rcases List.mem_cons.mp hc with rfl | hc
        · exact ⟨List.mem_cons_self x as, h⟩
        · rcases (ih (a :: seen)).mp hc with ⟨h1, h2⟩
          exact ⟨List.mem_cons_of_mem a h1,
            fun hx => h2 (List.mem_cons_of_mem a hx)⟩
      · rintro ⟨h1, h2⟩
        rcases List.mem_cons.mp h1 with rfl | h1
        · exact List.mem_cons_self x _
        · by_cases hxa : x = a
          · subst hxa
            exact List.mem_cons_self x _
          · exact List.mem_cons_of_mem a ((ih (a :: seen)).mpr
              ⟨h1, fun hx => (List.mem_cons.mp hx).elim hxa h2⟩)

/-- Membership through first-occurrence dedup. -/
theorem mem_dedupFirst [DecidableEq α] (x : α) (l : List α) :
    x ∈ dedupFirst l ↔ x ∈ l := by
  rw [dedupFirst, mem_dedupFirstGo]
  simp

/-- The dedup worker removes all duplicates. -/
theorem nodup_dedupFirstGo [DecidableEq α] (seen l : List α) :
    (dedupFirstGo seen l).Nodup := by
  induction l generalizing seen with
  | nil => simp [dedupFirstGo]
  | cons a as ih =>
    by_cases h : a ∈ seen
    · rw [dedupFirstGo, if_pos h]
      exact ih seen
    · rw [dedupFirstGo, if_neg h]
      refine List.nodup_cons.mpr ⟨?_, ih (a :: seen)⟩
      intro hc
      exact ((mem_dedupFirstGo a (a :: seen) as).mp hc).2 (List.mem_cons_self a seen)

/-- First-occurrence dedup removes all duplicates. -/
theorem nodup_dedupFirst [DecidableEq α] (l : List α) : (dedupFirst l).Nodup :=
  nodup_dedupFirstGo [] l

/-- An empty sort result comes only from an empty input. -/
theorem sortBy_eq_nil (le : α → α → Bool) (l : List α) :
    sortBy le l = [] ↔ l = [] := by
  constructor
  · intro h
    rcases l with _ | ⟨a, as⟩
    · rfl
    · exfalso
      have := (mem_sortBy le a (a :: as)).mpr (List.mem_cons_self a as)
      rw [h] at this
      simp at this
  · rintro rfl
    rfl

/-- An empty dedup result comes only from an empty input. -/
theorem dedupFirst_eq_nil [DecidableEq α] (l : List α) :
    dedupFirst l = [] ↔ l = [] := by
  constructor
  · intro h
    rcases l with _ | ⟨a, as⟩
    · rfl
    · exfalso
      have := (mem_dedupFirst a (a :: as)).mpr (List.mem_cons_self a as)
      rw [h] at this
      simp at this
  · rintro rfl
    rfl

/-! ### Theorems: matrix construction (C2, C1) -/

/-- The shared numeric/date filter branch never changes the column list. -/
theorem maskedFilter_cols (t : Table) (c : FilterCriterion) (coerce : Value → Option Int) :
    (maskedFilter t c coerce).cols = t.cols := by
  rcases hv : c.values with _ | ⟨v0, rest⟩
  · simp [maskedFilter, hv]
  · rcases h0 : coerce v0 with _ | s <;> simp [maskedFilter, hv, h0]

/-- One filter criterion never changes the column list. -/
theorem applyCriterion_cols (t : Table) (c : FilterCriterion) :
    (applyCriterion t c).cols = t.cols := by
  by_cases h1 : ¬ c.column ∈ t.cols
  · simp [applyCriterion, h1]
  · by_cases h2 : c.value_type = "categorical"
    · rcases hv : (c.values.filter (fun v => !v.isna)).map Value.toStr with _ | ⟨v0, vs⟩ <;>
        simp [applyCriterion, h1, h2, hv]
    · by_cases h3 : c.value_type = "date" <;>
        simp [applyCriterion, h1, h2, h3, maskedFilter_cols]

/-- The filter engine never changes the column list. -/
theorem applyFilters_cols (t : Table) (fs : List FilterCriterion) :
    (applyFilters t fs).cols = t.cols := by
  induction fs generalizing t with
  | nil => rfl
  | cons c cs ih =>
    show (applyFilters (applyCriterion t c) cs).cols = t.cols
    rw [ih (applyCriterion t c), applyCriterion_cols]

/-- Unfolding of build_matrix once both tables are loaded. -/
theorem buildMatrix_eq (m : ModelState) (sdf0 : Table) (crs : List CourseRow)
    (hs : m.students_df = some sdf0) (hc : m.courses_df = some crs) :
    buildMatrix m =
      (if (buildStudents (applyFilters sdf0 m.filters) (m.student_id_column.getD "")
            m.student_name_column).isEmpty then emptyMatrix
       else if (buildCourses m.course_lookup
            (uniqueQidsOf (applyFilters sdf0 m.filters) (m.qid_column.getD ""))).isEmpty then
         ⟨buildStudents (applyFilters sdf0 m.filters) (m.student_id_column.getD "")
            m.student_name_column, [], []⟩
       else
         ⟨buildStudents (applyFilters sdf0 m.filters) (m.student_id_column.getD "")
            m.student_name_column,
          buildCourses m.course_lookup
            (uniqueQidsOf (applyFilters sdf0 m.filters) (m.qid_column.getD "")),
          buildCells (applyFilters sdf0 m.filters) (m.qid_column.getD "")
            (m.completion_column.getD "")
            (buildStudents (applyFilters sdf0 m.filters) (m.student_id_column.getD "")
              m.student_name_column)
            (buildCourses m.course_lookup
              (uniqueQidsOf (applyFilters sdf0 m.filters) (m.qid_column.getD "")))⟩) := by
  unfold buildMatrix
  rw [hs, hc]

/-- A student axis is empty exactly when no non-missing identifier survives. -/
theorem buildStudents_eq_nil (sdf : Table) (idCol : String) (nc : Option String) :
    buildStudents sdf idCol nc = [] ↔
      (sdf.rows.map (fun r => Row.get r idCol)).filter (fun v => !v.isna) = [] := by
  rw [buildStudents, List.map_eq_nil_iff, groupKeys, sortBy_eq_nil, dedupFirst_eq_nil]

/-- The axis ids of the built course list are the given ids. -/
theorem buildCourses_qids (lookup : List (String × CourseRow)) (qids : List String) :
    (buildCourses lookup qids).map CourseDescriptor.qid = qids := by
  simp [buildCourses, List.map_map]
  exact List.map_id qids

/-- The code-point comparison of character lists is total. -/
theorem charListLE_total : ∀ as bs : List Char, charListLE as bs = true ∨ charListLE bs as = true
  | [], _ => Or.inl rfl
  | _ :: _, [] => Or.inr rfl
  | a :: as, b :: bs => by
    by_cases hab : a < b
    · left
      simp [charListLE, hab]
    · by_cases hba : b < a
      · right
        simp [charListLE, hba]
      · rcases charListLE_total as bs with h | h
        · left
          simp [charListLE, hab, hba, h]
        · right
          simp [charListLE, hab, hba, h]

/-- The code-point comparison of character lists is transitive. -/
theorem charListLE_trans : ∀ as bs cs : List Char,
    charListLE as bs = true → charListLE bs cs = true → charListLE as cs = true
  | [], _, _, _, _ => rfl
  | _ :: _, [], _, h1, _ => by simp [charListLE] at h1
  | _ :: _, _ :: _, [], _, h2 => by simp [charListLE] at h2
  | a :: as, b :: bs, c :: cs, h1, h2 => by
    by_cases hab : a < b
    · by_cases hbc : b < c
      · simp [charListLE, lt_trans hab hbc]
      · by_cases hcb : c < b
        · simp [charListLE, hbc, hcb] at h2
        · have hbc2 : b = c := le_antisymm (le_of_not_lt hcb) (le_of_not_lt hbc)
          subst hbc2
          simp [charListLE, hab]
    · by_cases hba : b < a
      · simp [charListLE, hab, hba] at h1
      · have hab2 : a = b := le_antisymm (le_of_not_lt hba) (le_of_not_lt hab)
        subst hab2
        rw [charListLE, if_neg hab, if_neg hba] at h1
        by_cases hac : a < c
        · simp [charListLE, hac]
        · by_cases hca : c < a
          · simp [charListLE, hac, hca] at h2
          · rw [charListLE, if_neg hac, if_neg hca] at h2 ⊢
            exact charListLE_trans as bs cs h1 h2

/-- The string comparison is total. -/
theorem strLE_total : ∀ a b : String, strLE a b = true ∨ strLE b a = true :=
  fun a b => charListLE_total a.data b.data

/-- The string comparison is transitive. -/
theorem strLE_trans : ∀ a b c : String,
    strLE a b = true → strLE b c = true → strLE a c = true :=
  fun a b c h1 h2 => charListLE_trans a.data b.data c.data h1 h2

/-- C2: for a loaded model with detected columns (where student identifiers,
string-coerced at load time, are never missing), the course axis of
build_matrix is exactly the ascending sorted list of the distinct stringified
non-missing qualification ids of the filtered student table: the axis equals
that list, is duplicate-free and sorted, contains exactly those ids, and does
not depend on the course catalog or its lookup, which only feed labels and
catalog row references. -/
theorem build_matrix_axis (m : ModelState) (sdf : Table) (crs : List CourseRow)
    (idc qc : String)
    (hs : m.students_df = some sdf) (hc : m.courses_df = some crs)
    (hid : m.student_id_column = some idc) (hq : m.qid_column = some qc)
    (hna : ∀ r ∈ (applyFilters sdf m.filters).rows, (Row.get r idc).isna = false) :
    ((buildMatrix m).courses.map CourseDescriptor.qid =
      sortBy strLE
        (dedupFirst ((((applyFilters sdf m.filters).rows.map (fun r => Row.get r qc)).filter
          (fun v => !v.isna)).map Value.toStr)))
  ∧ ((buildMatrix m).courses.map CourseDescriptor.qid).Nodup
  ∧ ((buildMatrix m).courses.map CourseDescriptor.qid).Pairwise (fun a b => strLE a b = true)
  ∧ (∀ s : String, s ∈ (buildMatrix m).courses.map CourseDescriptor.qid ↔
      ∃ r ∈ (applyFilters sdf m.filters).rows,
        (Row.get r qc).isna = false ∧ (Row.get r qc).toStr = s)
  ∧ (∀ (crs2 : List CourseRow) (lookup2 : List (String × CourseRow)),
      (buildMatrix { m with courses_df := some crs2, course_lookup := lookup2 }).courses.map
          CourseDescriptor.qid =
        (buildMatrix m).courses.map CourseDescriptor.qid) := by
  have key : ∀ (m2 : ModelState) (crs2 : List CourseRow),
      m2.students_df = some sdf → m2.courses_df = some crs2 →
      m2.filters = m.filters → m2.student_id_column = some idc → m2.qid_column = some qc →
      (buildMatrix m2).courses.map CourseDescriptor.qid =
        uniqueQidsOf (applyFilters sdf m.filters) qc := by
    intro m2 crs2 hs2 hc2 hf2 hid2 hq2
    rw [buildMatrix_eq m2 sdf crs2 hs2 hc2, hid2, hq2, hf2]
    simp only [Option.getD_some]
    by_cases hstu : (buildStudents (applyFilters sdf m.filters) idc
        m2.student_name_column).isEmpty
    · rw [if_pos hstu]
      have hnil := (buildStudents_eq_nil _ idc m2.student_name_column).mp
        (List.isEmpty_iff.mp hstu)
      have hrows : (applyFilters sdf m.filters).rows = [] := by
        rcases hft : (applyFilters sdf m.filters).rows with _ | ⟨r, rs⟩
        · rfl
        · exfalso
          have hmem : Row.get r idc ∈
              ((applyFilters sdf m.filters).rows.map (fun r => Row.get r idc)).filter
                (fun v => !v.isna) := by
            apply List.mem_filter.mpr
            constructor
            · exact List.mem_map.mpr ⟨r, by rw [hft]; exact List.mem_cons_self r rs, rfl⟩
            · simp [hna r (by rw [hft]; exact List.mem_cons_self r rs)]
          rw [hnil] at hmem
          simp at hmem
      simp [emptyMatrix, uniqueQidsOf, hrows, dedupFirst, dedupFirstGo, sortBy]
    · rw [if_neg hstu]
      by_cases hcrs : (buildCourses m2.course_lookup
          (uniqueQidsOf (applyFilters sdf m.filters) qc)).isEmpty
      · rw [if_pos hcrs]
        have : uniqueQidsOf (applyFilters sdf m.filters) qc = [] := by
          have := List.isEmpty_iff.mp hcrs
          rw [buildCourses, List.map_eq_nil_iff] at this
          exact this
        simp [this]
      · rw [if_neg hcrs]
        exact buildCourses_qids _ _
  have c1 := key m crs hs hc rfl hid hq
  have c5 : ∀ (crs2 : List CourseRow) (lookup2 : List (String × CourseRow)),
      (buildMatrix { m with courses_df := some crs2, course_lookup := lookup2 }).courses.map
          CourseDescriptor.qid =
        (buildMatrix m).courses.map CourseDescriptor.qid := by
    intro crs2 lookup2
    rw [c1, key { m with courses_df := some crs2, course_lookup := lookup2 } crs2 hs rfl
      rfl hid hq]
  refine ⟨c1, ?_, ?_, ?_, c5⟩
  · rw [c1]
    exact nodup_sortBy _ _ (nodup_dedupFirst _)
  · rw [c1]
    exact pairwise_sortBy strLE strLE_total strLE_trans _
  · intro s
    rw [c1, uniqueQidsOf]
    rw [mem_sortBy, mem_dedupFirst]
    constructor
    · intro h
      obtain ⟨v, hv, hvs⟩ := List.mem_map.mp h
      obtain ⟨hvmem, hvna⟩ := List.mem_filter.mp hv
      obtain ⟨r, hr, hrv⟩ := List.mem_map.mp hvmem
      exact ⟨r, hr, by rw [hrv]; simpa using hvna, by rw [hrv, hvs]⟩
    · rintro ⟨r, hr, hna2, hstr⟩
      apply List.mem_map.mpr
      refine ⟨Row.get r qc, List.mem_filter.mpr ⟨List.mem_map.mpr ⟨r, hr, rfl⟩, by simp [hna2]⟩, hstr⟩

/-- Witness for C2 at a concrete input: two rows with qualification ids "Q2"
and "Q1" produce the sorted axis ["Q1", "Q2"], with an empty catalog lookup. -/
theorem build_matrix_axis_w :
    (buildMatrix
      ⟨some ⟨["id", "q", "d"],
        [[("id", Value.str "S1"), ("q", Value.str "Q2"), ("d", Value.str "2024-01-01")],
         [("id", Value.str "S1"), ("q", Value.str "Q1"), ("d", Value.str "2024-03-01")]]⟩,
       some [⟨[], KwalField.notList⟩], none,
       some "id", none, some "q", some "d", [], emptyMatrix, []⟩).courses.map
      CourseDescriptor.qid = ["Q1", "Q2"] :=
  (build_matrix_axis
    ⟨some ⟨["id", "q", "d"],
      [[("id", Value.str "S1"), ("q", Value.str "Q2"), ("d", Value.str "2024-01-01")],
       [("id", Value.str "S1"), ("q", Value.str "Q1"), ("d", Value.str "2024-03-01")]]⟩,
     some [⟨[], KwalField.notList⟩], none,
     some "id", none, some "q", some "d", [], emptyMatrix, []⟩
    ⟨["id", "q", "d"],
      [[("id", Value.str "S1"), ("q", Value.str "Q2"), ("d", Value.str "2024-01-01")],
       [("id", Value.str "S1"), ("q", Value.str "Q1"), ("d", Value.str "2024-03-01")]]⟩
    [⟨[], KwalField.notList⟩] "id" "q" rfl rfl rfl rfl (by decide)).1.trans (by decide)

/-! ### Theorems: model state effects of loads and filters (C10, C6) -/

/-- C10: a successful load_students, besides replacing the student table and
re-detecting the schema columns, resets the active filter list to empty and
empties the cached matrix; set_filters stores exactly the new list and a
matrix rebuild leaves the filter list untouched, so filters persist across
rebuilds and set_filters but not across a student reload. -/
theorem load_students_resets_filters :
    (∀ (m : ModelState) (ex : Bool) (df : Table),
       (loadStudents m ex df).err = none →
       (loadStudents m ex df).state.filters = [] ∧
       (loadStudents m ex df).state.matrix_data = emptyMatrix)
  ∧ (∀ (m : ModelState) (fs : List FilterCriterion), (setFilters m fs).filters = fs)
  ∧ (∀ m : ModelState, (buildMatrixS m).filters = m.filters) := by
  refine ⟨?_, fun m fs => rfl, fun m => rfl⟩
  intro m ex df h
  rcases ex with _ | _
  · simp [loadStudents] at h
  · by_cases hemp : df.rows.isEmpty
    · simp [loadStudents, hemp] at h
    · rcases hid : detectColumn df.cols STUDENT_ID_CANDIDATES with _ | idCol
      · simp [loadStudents, hemp, hid] at h
      · rcases hqc : detectColumn df.cols QID_CANDIDATES with _ | qidCol
        · simp [loadStudents, hemp, hid, hqc] at h
        · rcases hcc : detectColumn df.cols COMPLETION_CANDIDATES with _ | compCol
          · simp [loadStudents, hemp, hid, hqc, hcc] at h
          · simp [loadStudents, hemp, hid, hqc, hcc]

/-- Witness for C10 at a concrete input: a successful reload of a model that
had an active filter clears the filter list and the cached matrix. -/
theorem load_students_resets_filters_w :
    (loadStudents
      ⟨none, none, none, none, none, none, none, [], emptyMatrix,
       [⟨"q", "is", [Value.str "Q1"], "categorical"⟩]⟩ true
      ⟨["student_id", "Naam", "Kwal. ID", "Uitgifte"],
       [[("student_id", Value.str "S1"), ("Naam", Value.str "A"),
         ("Kwal. ID", Value.str "Q1"), ("Uitgifte", Value.str "2024-01-01")]]⟩).state.filters =
      [] ∧
    (loadStudents
      ⟨none, none, none, none, none, none, none, [], emptyMatrix,
       [⟨"q", "is", [Value.str "Q1"], "categorical"⟩]⟩ true
      ⟨["student_id", "Naam", "Kwal. ID", "Uitgifte"],
       [[("student_id", Value.str "S1"), ("Naam", Value.str "A"),
         ("Kwal. ID", Value.str "Q1"), ("Uitgifte", Value.str "2024-01-01")]]⟩).state.matrix_data =
      emptyMatrix :=
  load_students_resets_filters.1
    ⟨none, none, none, none, none, none, none, [], emptyMatrix,
     [⟨"q", "is", [Value.str "Q1"], "categorical"⟩]⟩ true
    ⟨["student_id", "Naam", "Kwal. ID", "Uitgifte"],
     [[("student_id", Value.str "S1"), ("Naam", Value.str "A"),
       ("Kwal. ID", Value.str "Q1"), ("Uitgifte", Value.str "2024-01-01")]]⟩ (by decide)

/-- Counterexample to C6 as stated: a load_students call that fails schema
detection (the table has an identifier column "ID" but no qualification id
column) raises the missing-qualification-column error, yet the prior students
table has already been replaced by the new one. -/
theorem load_students_clobbers_prior :
    (loadStudents
      ⟨some ⟨["id"], [[("id", Value.str "S1")]]⟩, none, none, none, none, none, none,
       [], emptyMatrix, []⟩ true
      ⟨["ID", "x"], [[("ID", Value.str "S2"), ("x", Value.num 1)]]⟩).err =
        some LoadError.missingQidColumn
  ∧ (loadStudents
      ⟨some ⟨["id"], [[("id", Value.str "S1")]]⟩, none, none, none, none, none, none,
       [], emptyMatrix, []⟩ true
      ⟨["ID", "x"], [[("ID", Value.str "S2"), ("x", Value.num 1)]]⟩).state.students_df ≠
      (⟨some ⟨["id"], [[("id", Value.str "S1")]]⟩, none, none, none, none, none, none,
       [], emptyMatrix, []⟩ : ModelState).students_df := by
  constructor
  · decide
  · decide

/-- C6 as amended: every failing load raises a distinguishable error; a failed
load_courses and a load_students failing on a missing file or an empty table
leave the model state entirely unchanged; a load_students failing schema
detection leaves the cached matrix, the filter list and all course state
untouched but has already replaced the students table (and the schema columns
detected before the failing check). -/
theorem load_errors_preserve_state :
    (∀ (m : ModelState) (df : Table),
       loadStudents m false df = ⟨some LoadError.fileNotFound, m⟩)
  ∧ (∀ (m : ModelState) (df : Table), df.rows.isEmpty = true →
       loadStudents m true df = ⟨some LoadError.emptySource, m⟩)
  ∧ (∀ (m : ModelState) (df : Table), (loadStudents m true df).err.isSome →
       df.rows.isEmpty = false →
       (loadStudents m true df).state.students_df = some df ∧
       (loadStudents m true df).state.matrix_data = m.matrix_data ∧
       (loadStudents m true df).state.filters = m.filters ∧
       (loadStudents m true df).state.courses_df = m.courses_df ∧
       (loadStudents m true df).state.kwalificaties_df = m.kwalificaties_df ∧
       (loadStudents m true df).state.course_lookup = m.course_lookup)
  ∧ (∀ (m : ModelState) (ex : Bool) (crs : List CourseRow) (kw : List Row),
       (loadCourses m ex crs kw).err.isSome → (loadCourses m ex crs kw).state = m) := by
  refine ⟨?_, ?_, ?_, ?_⟩
  · intro m df
    simp [loadStudents]
  · intro m df h
    simp [loadStudents, h]
  · intro m df h hemp
    rcases hid : detectColumn df.cols STUDENT_ID_CANDIDATES with _ | idCol
    · simp [loadStudents, hemp, hid]
    · rcases hqc : detectColumn df.cols QID_CANDIDATES with _ | qidCol
      · simp [loadStudents, hemp, hid, hqc]
      · rcases hcc : detectColumn df.cols COMPLETION_CANDIDATES with _ | compCol
        · simp [loadStudents, hemp, hid, hqc, hcc]
        · exfalso
          simp [loadStudents, hemp, hid, hqc, hcc] at h
  · intro m ex crs kw h
    rcases ex with _ | _
    · simp [loadCourses]
    · by_cases hemp : crs.isEmpty
      · simp [loadCourses, hemp]
      · exfalso
        simp [loadCourses, hemp] at h

/-- Witness for the amended C6 at a concrete input: a course load against a
missing file fails and leaves the model (here one with loaded students)
exactly as it was. -/
theorem load_errors_preserve_state_w :
    (loadCourses
      ⟨some ⟨["id"], [[("id", Value.str "S1")]]⟩, none, none, some "id", none, none, none,
       [], emptyMatrix, []⟩ false [] []).state =
    ⟨some ⟨["id"], [[("id", Value.str "S1")]]⟩, none, none, some "id", none, none, none,
     [], emptyMatrix, []⟩ :=
  load_errors_preserve_state.2.2.2
    ⟨some ⟨["id"], [[("id", Value.str "S1")]]⟩, none, none, some "id", none, none, none,
     [], emptyMatrix, []⟩ false [] [] (by decide)

/-- find? returns the head of the filtered list. -/
theorem find?_eq_head_filter (p : α → Bool) (l : List α) :
    l.find? p = (l.filter p).head? := by
  induction l with
  | nil => rfl
  | cons a as ih =>
    by_cases h : p a = true
    · rw [List.find?_cons_of_pos _ h, List.filter_cons, if_pos h]
      rfl
    · rw [List.find?_cons_of_neg _ h, List.filter_cons, if_neg h, ih]

/-- find? over the reversed list returns the last filtered element. -/
theorem find?_reverse_eq_getLast (p : α → Bool) (l : List α) :
    l.reverse.find? p = (l.filter p).getLast? := by
  rw [find?_eq_head_filter, List.filter_reverse, List.head?_reverse]

/-- Filtering one key out of an indexed flat map extracts the block of that
index, provided every produced entry is keyed by its block index. -/
theorem enumFrom_flatMap_filter {β : Type} (l : List α) (n i j : Nat)
    (f : Nat × α → List ((Nat × Nat) × β))
    (hkey : ∀ p e, e ∈ f p → e.1.1 = p.1) :
    ((List.enumFrom n l).flatMap f).filter (fun e => decide (e.1 = (i, j))) =
      (if n ≤ i then
        match l.get? (i - n) with
        | some a => (f (i, a)).filter (fun e => decide (e.1 = (i, j)))
        | none => []
      else []) := by
  induction l generalizing n with
  | nil =>
    by_cases h : n ≤ i
    · rw [if_pos h]
      rfl
    · rw [if_neg h]
      rfl
  | cons a as ih =>
    show ((f (n, a) ++ (List.enumFrom (n + 1) as).flatMap f).filter
      (fun e => decide (e.1 = (i, j)))) = _
    rw [List.filter_append, ih (n + 1)]
    by_cases hni : i = n
    · subst hni
      rw [if_neg (by omega), if_pos (le_refl i)]
      have : i - i = 0 := by omega
      rw [this]
      simp
    · have hfirst : (f (n, a)).filter (fun e => decide (e.1 = (i, j))) = [] := by
        apply List.filter_eq_nil_iff.mpr
        intro e he
        have hk := hkey (n, a) e he
        simp only [decide_eq_true_eq]
        intro hc
        rw [hc] at hk
        simp at hk
        exact hni hk
      rw [hfirst, List.nil_append]
      by_cases hle : n ≤ i
      · have hle2 : n + 1 ≤ i := by omega
        rw [if_pos hle2, if_pos hle]
        have : i - n = (i - (n + 1)) + 1 := by omega
        rw [this]
        rfl
      · rw [if_neg (by omega), if_neg hle]

/-- Filtering a filterMap in which no produced entry satisfies the predicate. -/
theorem filterMap_filter_none {β : Type} (g : α → Option β) (p : β → Bool) (ks : List α)
    (hall : ∀ k ∈ ks, ∀ e, g k = some e → p e = false) :
    (ks.filterMap g).filter p = [] := by
  apply List.filter_eq_nil_iff.mpr
  intro e he
  obtain ⟨k, hk, hgk⟩ := List.mem_filterMap.mp he
  simp [hall k hk e hgk]

/-- Filtering a filterMap over duplicate-free keys in which exactly the key k0
produces a matching entry. -/
theorem filterMap_filter_unique {β : Type} (g : α → Option β) (p : β → Bool) (ks : List α)
    (hnd : ks.Nodup) (k0 : α) (e0 : β) (hk0 : k0 ∈ ks) (hg : g k0 = some e0)
    (hp : p e0 = true)
    (hothers : ∀ k ∈ ks, k ≠ k0 → ∀ e, g k = some e → p e = false) :
    (ks.filterMap g).filter p = [e0] := by
  induction ks with
  | nil => simp at hk0
  | cons a as ih =>
    rcases List.nodup_cons.mp hnd with ⟨hna, hnas⟩
    rcases List.mem_cons.mp hk0 with heq | hk0m
    · have hrest : (as.filterMap g).filter p = [] := by
        apply filterMap_filter_none
        intro k hk e hgk
        refine hothers k (List.mem_cons_of_mem _ hk) ?_ e hgk
        intro hc
        rw [← heq] at hna
        exact hna (hc ▸ hk)
      rw [← heq, List.filterMap_cons, hg]
      show List.filter p (e0 :: List.filterMap g as) = [e0]
      rw [List.filter_cons, if_pos (by simp [hp]), hrest]
    · have hne : a ≠ k0 := fun hc => hna (hc ▸ hk0m)
      have ha : ∀ e, g a = some e → p e = false :=
        hothers a (List.mem_cons_self a as) hne
      have hrest := ih hnas hk0m
        (fun k hk hkne e hgk => hothers k (List.mem_cons_of_mem _ hk) hkne e hgk)
      rw [List.filterMap_cons]
      rcases hga : g a with _ | ea
      · exact hrest
      · show List.filter p (ea :: List.filterMap g as) = [e0]
        rw [List.filter_cons, if_neg (by simp [ha ea hga]), hrest]

/-- find? over an indexed list locates the position carrying a given key,
when the keys are duplicate-free. -/
theorem enumFrom_find?_of_get? {α : Type} (h : α → String) (l : List α)
    (n j : Nat) (c : α) (hnd : (l.map h).Nodup) (hj : l.get? j = some c) :
    (List.enumFrom n l).find? (fun q => decide (h q.2 = h c)) = some (n + j, c) := by
  induction l generalizing n j with
  | nil => simp at hj
  | cons a as ih =>
    rw [List.map_cons, List.nodup_cons] at hnd
    obtain ⟨hna, hnas⟩ := hnd
    by_cases ha : h a = h c
    · rcases j with _ | k
      · simp at hj
        subst hj
        simp [List.find?_cons, ha]
      · exfalso
        have hcm : c ∈ as := List.get?_mem hj
        refine hna ?_
        rw [ha]
        exact List.mem_map.mpr ⟨c, hcm, rfl⟩
    · rcases j with _ | k
      · simp at hj
        exact absurd (by rw [hj]) ha
      · have := ih (n + 1) k hnas hj
        rw [show n + (k + 1) = (n + 1) + k by omega]
        rw [← this]
        simp [List.find?_cons, ha]

/-- Whatever find? returns from an indexed list sits at its index and
satisfies the predicate. -/
theorem enumFrom_find?_some {α : Type} (pred : Nat × α → Bool) (l : List α) (n : Nat)
    (q : Nat × α) (h : (List.enumFrom n l).find? pred = some q) :
    n ≤ q.1 ∧ l.get? (q.1 - n) = some q.2 ∧ pred q = true := by
  induction l generalizing n with
  | nil => simp at h
  | cons a as ih =>
    rw [show List.enumFrom n (a :: as) = (n, a) :: List.enumFrom (n + 1) as from rfl] at h
    by_cases hp : pred (n, a) = true
    · rw [List.find?_cons_of_pos _ hp] at h
      cases h
      exact ⟨le_refl n, by simp, hp⟩
    · rw [List.find?_cons_of_neg _ hp] at h
      obtain ⟨h1, h2, h3⟩ := ih (n + 1) h
      refine ⟨by omega, ?_, h3⟩
      have : q.1 - n = (q.1 - (n + 1)) + 1 := by omega
      rw [this]
      exact h2

/-- Every cell a group inserts is keyed by its student index. -/
theorem cellFor_key (qidCol compCol : String) (courses : List CourseDescriptor)
    (i : Nat) (student : StudentDescriptor) (k : Value)
    (e : (Nat × Nat) × CellDescriptor)
    (h : cellFor qidCol compCol courses i student k = some e) : e.1.1 = i := by
  unfold cellFor at h
  rcases hf : courses.enum.find? (fun q => decide (q.2.qid = Value.toStr k)) with _ | q
  · rw [hf] at h
    simp at h
  · rw [hf] at h
    cases h
    rfl

/-- Every cell a student inserts is keyed by its student index. -/
theorem studentCells_key (sdf : Table) (qidCol compCol : String)
    (courses : List CourseDescriptor) (p : Nat × StudentDescriptor)
    (e : (Nat × Nat) × CellDescriptor)
    (h : e ∈ studentCells sdf qidCol compCol courses p) : e.1.1 = p.1 := by
  unfold studentCells at h
  by_cases hcols : qidCol ∈ sdf.cols
  · rw [if_pos hcols] at h
    obtain ⟨k, _, hgk⟩ := List.mem_filterMap.mp h
    exact cellFor_key qidCol compCol courses p.1 p.2 k e hgk
  · rw [if_neg hcols] at h
    simp at h

/-- find? over an indexed list locates the position carrying a given key (enum
version). -/
theorem enum_find?_of_get? {α : Type} (h : α → String) (l : List α)
    (j : Nat) (c : α) (hnd : (l.map h).Nodup) (hj : l.get? j = some c) :
    l.enum.find? (fun q => decide (h q.2 = h c)) = some (j, c) := by
  have := enumFrom_find?_of_get? h l 0 j c hnd hj
  rw [show l.enum = List.enumFrom 0 l from rfl]
  rw [this]
  simp

/-- Whatever find? returns from an indexed list sits at its index and
satisfies the predicate (enum version). -/
theorem enum_find?_some {α : Type} (pred : Nat × α → Bool) (l : List α)
    (q : Nat × α) (h : l.enum.find? pred = some q) :
    l.get? q.1 = some q.2 ∧ pred q = true := by
  have h2 := enumFrom_find?_some pred l 0 q (by rw [show List.enumFrom 0 l = l.enum from rfl]; exact h)
  refine ⟨?_, h2.2.2⟩
  have := h2.2.1
  simpa using this

/-- C1: for a loaded model with detected qualification and completion columns,
where the filtered table's qualification column holds strings (as the loader
guarantees via astype(str)), every (student, course) position of the built
matrix carries a cell exactly when the student has rows whose qualification id
equals that course's id: a present cell holds the full contributing row subset
and the maximum of the successfully parsed completion dates of those rows
(absent when none parses), and an absent key means the student has no row at
all for that qualification. -/
theorem build_matrix_cells (m : ModelState) (sdf : Table) (crs : List CourseRow)
    (qc cc : String)
    (hs : m.students_df = some sdf) (hc : m.courses_df = some crs)
    (hq : m.qid_column = some qc) (hcc : m.completion_column = some cc)
    (hqcol : qc ∈ (applyFilters sdf m.filters).cols)
    (hqstr : ∀ r ∈ (applyFilters sdf m.filters).rows, ∃ t, Row.get r qc = Value.str t)
    (i j : Nat) (s : StudentDescriptor) (c : CourseDescriptor)
    (hsi : (buildMatrix m).students.get? i = some s)
    (hcj : (buildMatrix m).courses.get? j = some c) :
    (s.rows.filter (fun r => decide (Row.get r qc = Value.str c.qid)) ≠ [] →
      cellGet (buildMatrix m) i j = some
        ⟨s, c,
         ((s.rows.filter (fun r => decide (Row.get r qc = Value.str c.qid))).filterMap
           (fun r => Value.toDateOpt (Row.get r cc))).max?,
         s.rows.filter (fun r => decide (Row.get r qc = Value.str c.qid))⟩)
  ∧ (((s.rows.filter (fun r => decide (Row.get r qc = Value.str c.qid))).filterMap
       (fun r => Value.toDateOpt (Row.get r cc))) = [] →
     s.rows.filter (fun r => decide (Row.get r qc = Value.str c.qid)) ≠ [] →
      cellGet (buildMatrix m) i j = some
        ⟨s, c, none, s.rows.filter (fun r => decide (Row.get r qc = Value.str c.qid))⟩)
  ∧ (s.rows.filter (fun r => decide (Row.get r qc = Value.str c.qid)) = [] →
      cellGet (buildMatrix m) i j = none) := by
  rw [buildMatrix_eq m sdf crs hs hc, hq, hcc] at hsi hcj ⊢
  simp only [Option.getD_some] at hsi hcj ⊢
  by_cases hstu : (buildStudents (applyFilters sdf m.filters)
      (m.student_id_column.getD "") m.student_name_column).isEmpty
  · rw [if_pos hstu] at hsi
    simp [emptyMatrix] at hsi
  · rw [if_neg hstu] at hsi hcj ⊢
    by_cases hcrs : (buildCourses m.course_lookup
        (uniqueQidsOf (applyFilters sdf m.filters) qc)).isEmpty
    · rw [if_pos hcrs] at hcj
      simp at hcj
    · rw [if_neg hcrs] at hsi hcj ⊢
      have hsmem : s ∈ buildStudents (applyFilters sdf m.filters)
          (m.student_id_column.getD "") m.student_name_column := List.get?_mem hsi
      obtain ⟨k0, hk0mem, hsdef⟩ := List.mem_map.mp hsmem
      have hrows : s.rows = (applyFilters sdf m.filters).rows.filter
          (fun r => decide (Row.get r (m.student_id_column.getD "") = k0)) := by
        rw [← hsdef]
      have hsub : ∀ r ∈ s.rows, r ∈ (applyFilters sdf m.filters).rows := by
        intro r hr
        rw [hrows] at hr
        exact (List.mem_filter.mp hr).1
      have hqnodup : (uniqueQidsOf (applyFilters sdf m.filters) qc).Nodup :=
        nodup_sortBy _ _ (nodup_dedupFirst _)
      have hcqnodup : ((buildCourses m.course_lookup
          (uniqueQidsOf (applyFilters sdf m.filters) qc)).map CourseDescriptor.qid).Nodup := by
        rw [buildCourses_qids]
        exact hqnodup
      have hkeys : ∀ k : Value, k ∈ groupKeys (s.rows.map (fun r => Row.get r qc)) ↔
          k ∈ (s.rows.map (fun r => Row.get r qc)).filter (fun v => !v.isna) :=
        fun k => (mem_sortBy _ _ _).trans (mem_dedupFirst _ _)
      have hkeysnd : (groupKeys (s.rows.map (fun r => Row.get r qc))).Nodup :=
        nodup_sortBy _ _ (nodup_dedupFirst _)
      have hflat : (buildCells (applyFilters sdf m.filters) qc cc
            (buildStudents (applyFilters sdf m.filters) (m.student_id_column.getD "")
              m.student_name_column)
            (buildCourses m.course_lookup
              (uniqueQidsOf (applyFilters sdf m.filters) qc))).filter
              (fun e => decide (e.1 = (i, j))) =
          (studentCells (applyFilters sdf m.filters) qc cc
            (buildCourses m.course_lookup (uniqueQidsOf (applyFilters sdf m.filters) qc))
            (i, s)).filter (fun e => decide (e.1 = (i, j))) := by
        rw [buildCells, show (buildStudents (applyFilters sdf m.filters)
            (m.student_id_column.getD "") m.student_name_column).enum =
          List.enumFrom 0 (buildStudents (applyFilters sdf m.filters)
            (m.student_id_column.getD "") m.student_name_column) from rfl]
        rw [enumFrom_flatMap_filter _ 0 i j _
          (fun p e he => studentCells_key _ _ _ _ p e he)]
        rw [if_pos (Nat.zero_le i), Nat.sub_zero, hsi]
      have hstudcells : studentCells (applyFilters sdf m.filters) qc cc
          (buildCourses m.course_lookup (uniqueQidsOf (applyFilters sdf m.filters) qc))
          (i, s) = (groupKeys (s.rows.map (fun r => Row.get r qc))).filterMap
            (cellFor qc cc (buildCourses m.course_lookup
              (uniqueQidsOf (applyFilters sdf m.filters) qc)) i s) := by
        rw [studentCells, if_pos hqcol]
      have hcellget : ∀ (sts : List StudentDescriptor) (cos : List CourseDescriptor)
          (cls : List ((Nat × Nat) × CellDescriptor)),
          cellGet ⟨sts, cos, cls⟩ i j =
            ((cls.filter (fun e => decide (e.1 = (i, j)))).getLast?).map (fun e => e.2) := by
        intro sts cos cls
        rw [cellGet, show (⟨sts, cos, cls⟩ : MatrixData).cell_lookup = cls from rfl,
          find?_reverse_eq_getLast]
      have hother : ∀ k ∈ groupKeys (s.rows.map (fun r => Row.get r qc)),
          k ≠ Value.str c.qid → ∀ e, cellFor qc cc (buildCourses m.course_lookup
            (uniqueQidsOf (applyFilters sdf m.filters) qc)) i s k = some e →
          (decide (e.1 = (i, j)) : Bool) = false := by
        intro k hk hkne e hge
        have hkf := (hkeys k).mp hk
        obtain ⟨hkmap, _⟩ := List.mem_filter.mp hkf
        obtain ⟨r0, hr0, hr0k⟩ := List.mem_map.mp hkmap
        obtain ⟨t, ht⟩ := hqstr r0 (hsub r0 hr0)
        have hkt : k = Value.str t := by rw [← hr0k, ht]
        unfold cellFor at hge
        rcases hf : (buildCourses m.course_lookup
            (uniqueQidsOf (applyFilters sdf m.filters) qc)).enum.find?
            (fun q => decide (q.2.qid = Value.toStr k)) with _ | q
        · rw [hf] at hge
          simp at hge
        · rw [hf] at hge
          cases hge
          apply decide_eq_false
          intro hpair
          have hpair2 : (i, q.1) = (i, j) := hpair
          have hq1 : q.1 = j := by
            simpa using congrArg Prod.snd hpair2
          obtain ⟨hget, hpred⟩ := enum_find?_some _ _ q hf
          rw [hq1, hcj] at hget
          injection hget with hqc2
          simp only [decide_eq_true_eq] at hpred
          apply hkne
          have h1 : c.qid = Value.toStr k := by rw [hqc2]; exact hpred
          have h2 : Value.toStr k = t := by
            rw [hkt]
            rfl
          rw [hkt, h1, h2]
      have main1 : s.rows.filter (fun r => decide (Row.get r qc = Value.str c.qid)) ≠ [] →
          cellGet ⟨buildStudents (applyFilters sdf m.filters) (m.student_id_column.getD "")
              m.student_name_column,
            buildCourses m.course_lookup (uniqueQidsOf (applyFilters sdf m.filters) qc),
            buildCells (applyFilters sdf m.filters) qc cc
              (buildStudents (applyFilters sdf m.filters) (m.student_id_column.getD "")
                m.student_name_column)
              (buildCourses m.course_lookup
                (uniqueQidsOf (applyFilters sdf m.filters) qc))⟩ i j = some
            ⟨s, c,
             ((s.rows.filter (fun r => decide (Row.get r qc = Value.str c.qid))).filterMap
               (fun r => Value.toDateOpt (Row.get r cc))).max?,
             s.rows.filter (fun r => decide (Row.get r qc = Value.str c.qid))⟩ := by
        intro hne
        have hex : ∃ r ∈ s.rows, Row.get r qc = Value.str c.qid := by
          rcases hx : s.rows.filter (fun r => decide (Row.get r qc = Value.str c.qid)) with
            _ | ⟨r0, rest⟩
          · exact absurd hx hne
          · have hr0 : r0 ∈ s.rows.filter
                (fun r => decide (Row.get r qc = Value.str c.qid)) := by
              rw [hx]
              exact List.mem_cons_self _ _
            obtain ⟨hmem, hp⟩ := List.mem_filter.mp hr0
            exact ⟨r0, hmem, of_decide_eq_true hp⟩
        obtain ⟨r0, hr0, hr0eq⟩ := hex
        have hkmem : Value.str c.qid ∈ groupKeys (s.rows.map (fun r => Row.get r qc)) := by
          apply (hkeys _).mpr
          apply List.mem_filter.mpr
          exact ⟨List.mem_map.mpr ⟨r0, hr0, hr0eq⟩, by simp [Value.isna]⟩
        have hfind : (buildCourses m.course_lookup
            (uniqueQidsOf (applyFilters sdf m.filters) qc)).enum.find?
            (fun q => decide (q.2.qid = Value.toStr (Value.str c.qid))) = some (j, c) :=
          enum_find?_of_get? CourseDescriptor.qid _ j c hcqnodup hcj
        have hgk : cellFor qc cc (buildCourses m.course_lookup
            (uniqueQidsOf (applyFilters sdf m.filters) qc)) i s (Value.str c.qid) =
            some ((i, j),
              ⟨s, c,
               ((s.rows.filter (fun r => decide (Row.get r qc = Value.str c.qid))).filterMap
                 (fun r => Value.toDateOpt (Row.get r cc))).max?,
               s.rows.filter (fun r => decide (Row.get r qc = Value.str c.qid))⟩) := by
          unfold cellFor
          rw [hfind]
        rw [hcellget, hflat, hstudcells]
        rw [filterMap_filter_unique _ _ _ hkeysnd (Value.str c.qid) _ hkmem hgk
          (by simp) hother]
        rfl
      refine ⟨main1, ?_, ?_⟩
      · intro hdates hne
        have h1 := main1 hne
        rw [hdates] at h1
        exact h1
      · intro hnil
        have hnotin : ¬ Value.str c.qid ∈
            groupKeys (s.rows.map (fun r => Row.get r qc)) := by
          intro hmem
          have hf := (hkeys _).mp hmem
          obtain ⟨hmap, _⟩ := List.mem_filter.mp hf
          obtain ⟨r0, hr0, hr0eq⟩ := List.mem_map.mp hmap
          have hin : r0 ∈ s.rows.filter
              (fun r => decide (Row.get r qc = Value.str c.qid)) :=
            List.mem_filter.mpr ⟨hr0, by simp [hr0eq]⟩
          rw [hnil] at hin
          simp at hin
        have hzero := filterMap_filter_none
          (cellFor qc cc (buildCourses m.course_lookup
            (uniqueQidsOf (applyFilters sdf m.filters) qc)) i s)
          (fun e => decide (e.1 = (i, j)))
          (groupKeys (s.rows.map (fun r => Row.get r qc)))
          (by
            intro k hk e hge
            by_cases hkc : k = Value.str c.qid
            · exact absurd (hkc ▸ hk) hnotin
            · exact hother k hk hkc e hge)
        rw [hcellget, hflat, hstudcells, hzero]
        rfl

/-- Witness for C1 at a concrete input: one student with two rows for
qualification "Q1" dated 2024-01-01 and 2024-03-01 yields one cell at (0, 0)
holding both rows and the later date. -/
theorem build_matrix_cells_w :
    cellGet (buildMatrix
      ⟨some ⟨["id", "q", "d"],
        [[("id", Value.str "S1"), ("q", Value.str "Q1"), ("d", Value.str "2024-01-01")],
         [("id", Value.str "S1"), ("q", Value.str "Q1"), ("d", Value.str "2024-03-01")]]⟩,
       some [⟨[], KwalField.notList⟩], none,
       some "id", none, some "q", some "d", [], emptyMatrix, []⟩) 0 0 =
    some
      ⟨⟨"S1", "S1",
        [[("id", Value.str "S1"), ("q", Value.str "Q1"), ("d", Value.str "2024-01-01")],
         [("id", Value.str "S1"), ("q", Value.str "Q1"), ("d", Value.str "2024-03-01")]]⟩,
       ⟨"Q1", "Q1", none⟩, some 20240301,
       [[("id", Value.str "S1"), ("q", Value.str "Q1"), ("d", Value.str "2024-01-01")],
        [("id", Value.str "S1"), ("q", Value.str "Q1"), ("d", Value.str "2024-03-01")]]⟩ := by
  have h := (build_matrix_cells
    ⟨some ⟨["id", "q", "d"],
      [[("id", Value.str "S1"), ("q", Value.str "Q1"), ("d", Value.str "2024-01-01")],
       [("id", Value.str "S1"), ("q", Value.str "Q1"), ("d", Value.str "2024-03-01")]]⟩,
     some [⟨[], KwalField.notList⟩], none,
     some "id", none, some "q", some "d", [], emptyMatrix, []⟩
    ⟨["id", "q", "d"],
      [[("id", Value.str "S1"), ("q", Value.str "Q1"), ("d", Value.str "2024-01-01")],
       [("id", Value.str "S1"), ("q", Value.str "Q1"), ("d", Value.str "2024-03-01")]]⟩
    [⟨[], KwalField.notList⟩] "q" "d" rfl rfl rfl rfl (by decide)
    (by
      intro r hr
      have hr2 : r ∈
          [[("id", Value.str "S1"), ("q", Value.str "Q1"), ("d", Value.str "2024-01-01")],
           [("id", Value.str "S1"), ("q", Value.str "Q1"), ("d", Value.str "2024-03-01")]] := hr
      simp only [List.mem_cons, List.not_mem_nil, or_false] at hr2
      rcases hr2 with rfl | rfl
      · exact ⟨"Q1", by decide⟩
      · exact ⟨"Q1", by decide⟩)
    0 0
    ⟨"S1", "S1",
      [[("id", Value.str "S1"), ("q", Value.str "Q1"), ("d", Value.str "2024-01-01")],
       [("id", Value.str "S1"), ("q", Value.str "Q1"), ("d", Value.str "2024-03-01")]]⟩
    ⟨"Q1", "Q1", none⟩ (by decide) (by decide)).1 (by decide)
  exact h.trans (by decide)
